import Mathlib

/-!
# goatpad: the mail-merge pipeline of `goatpad.go`

A shallow embedding of `mailMerge` (goatpad.go, lines 602-683), of the batch
branch of `main` (lines 28-47) and of the Go library functions they call.

* Go strings are byte sequences: `Str` is a list of byte values.
* `ReplaceAll`, `ToLower`, `Join`, `filepathJoin` and `Clean` model
  `strings.ReplaceAll`, `strings.ToLower`, `strings.Join`, `filepath.Join`
  and `filepath.Clean` (Unix separator).
* The sequential prefix of `mailMerge` (template read, schema query, row
  query) is the function `mailMerge`; the concurrent part (producer loop,
  one goroutine per row, wait group, semaphore channel) is the step
  function `step` on `State`, driven by a schedule of `Event`s; `exec` runs
  a schedule, a choice that is not enabled being a step of no effect.
* `main` is the list of actions of the batch branch for given flag values.
* File operations return, with or without an error, as the schedule says:
  `os.Create` creates or truncates the file, `io.WriteString` writes at
  offset 0 of it. A file is named by the value `Env.resolve` gives its paths,
  so that different paths can name one file.
-/

namespace Goatpad

/-! ## Go strings -/

/-- A Go string: a sequence of bytes. -/
abbrev Str := List Nat

/-- The bytes of an ASCII literal. -/
def str (s : String) : Str := s.toList.map Char.toNat

/-- Opening delimiter of a placeholder, the literal `"{{"` of line 662. -/
def lbraces : Str := [123, 123]

/-- Closing delimiter of a placeholder, the literal `"}}"` of line 662. -/
def rbraces : Str := [125, 125]

/-- The search string `"{{"+columns[i]+"}}"` of line 662. -/
def placeholder (column : Str) : Str := lbraces ++ column ++ rbraces

/-- Width in bytes of the first rune of a byte string as
`utf8.DecodeRuneInString` reports it: an invalid or truncated encoding has
width 1. -/
def runeWidth : Str → Nat
  | [] => 0
  | b0 :: rest =>
    if 0xC2 ≤ b0 ∧ b0 ≤ 0xDF then
      match rest with
      | b1 :: _ => if 0x80 ≤ b1 ∧ b1 ≤ 0xBF then 2 else 1
      | [] => 1
    else if 0xE0 ≤ b0 ∧ b0 ≤ 0xEF then
      match rest with
      | b1 :: b2 :: _ =>
        if (if b0 = 0xE0 then 0xA0 else 0x80) ≤ b1 ∧ b1 ≤ (if b0 = 0xED then 0x9F else 0xBF)
            ∧ 0x80 ≤ b2 ∧ b2 ≤ 0xBF then 3 else 1
      | _ => 1
    else if 0xF0 ≤ b0 ∧ b0 ≤ 0xF4 then
      match rest with
      | b1 :: b2 :: b3 :: _ =>
        if (if b0 = 0xF0 then 0x90 else 0x80) ≤ b1 ∧ b1 ≤ (if b0 = 0xF4 then 0x8F else 0xBF)
            ∧ 0x80 ≤ b2 ∧ b2 ≤ 0xBF ∧ 0x80 ≤ b3 ∧ b3 ≤ 0xBF then 4 else 1
      | _ => 1
    else 1

/-- The case `old == ""` of `strings.Replace`: `new` is written after every
rune of the string; `k` is the number of bytes of the current rune still to
be copied (0 at a rune boundary). -/
def insertAfterRunes (new : Str) : Nat → Str → Str
  | _, [] => []
  | k, c :: cs =>
    if (if k = 0 then runeWidth (c :: cs) else k) - 1 = 0 then
      c :: (new ++ insertAfterRunes new 0 cs)
    else
      c :: insertAfterRunes new ((if k = 0 then runeWidth (c :: cs) else k) - 1) cs

/-- The replacement loop of `strings.Replace` for a non-empty `old`: the
string is scanned from the left, each occurrence of `old` found at the scan
position is replaced by `new` and the scan resumes after it (leftmost,
non-overlapping occurrences). `skip` is the number of bytes of an occurrence
just matched that are still to be passed over. -/
def replaceFrom (old new : Str) : Nat → Str → Str
  | _, [] => []
  | skip + 1, _ :: cs => replaceFrom old new skip cs
  | 0, c :: cs =>
    if old.isPrefixOf (c :: cs) then new ++ replaceFrom old new (old.length - 1) cs
    else c :: replaceFrom old new 0 cs

/-- Model of `strings.ReplaceAll(s, old, new)`. -/
def ReplaceAll (s old new : Str) : Str :=
  if old = [] then
    if new = [] then s else new ++ insertAfterRunes new 0 s
  else replaceFrom old new 0 s

/-- Model of `strings.ToLower(s)`: an ASCII-only string has its bytes `A`-`Z`
mapped to `a`-`z`; any other string goes through
`strings.Map(unicode.ToLower, s)`, which is the parameter `unicodeLower`. -/
def ToLower (unicodeLower : Str → Str) (s : Str) : Str :=
  if s.all (fun c => decide (c < 0x80)) then
    s.map (fun c => if 65 ≤ c ∧ c ≤ 90 then c + 32 else c)
  else unicodeLower s

/-- Model of `strings.Join(elems, sep)`. -/
def Join : List Str → Str → Str
  | [], _ => []
  | [e], _ => e
  | e :: es, sep => e ++ sep ++ Join es sep

/-! ## Paths (`path/filepath`, Unix) -/

/-- The path separator `/`. -/
def Separator : Nat := 47

/-- The elements of a path between separators. -/
def splitPath : Str → List Str
  | [] => [[]]
  | c :: cs =>
    if c = Separator then [] :: splitPath cs
    else
      match splitPath cs with
      | [] => [[c]]
      | e :: es => (c :: e) :: es

/-- The element loop of `filepath.Clean`: `out` is the stack of elements kept
so far, last kept element first. An empty element and `.` are dropped; `..`
removes the last kept real element, is kept when the path is not rooted and
nothing can be removed, and is dropped at the root. -/
def cleanElems (rooted : Bool) : List Str → List Str → List Str
  | out, [] => out
  | out, e :: es =>
    if e = [] ∨ e = [46] then cleanElems rooted out es
    else if e = [46, 46] then
      match out with
      | top :: below =>
        if top = [46, 46] then cleanElems rooted ([46, 46] :: out) es
        else cleanElems rooted below es
      | [] => if rooted then cleanElems rooted [] es else cleanElems rooted [[46, 46]] es
    else cleanElems rooted (e :: out) es

/-- Model of `filepath.Clean(path)`. -/
def Clean (path : Str) : Str :=
  if path = [] then [46]
  else
    match path.head? == some Separator, (cleanElems (path.head? == some Separator) [] (splitPath path)).reverse with
    | true, elems => Separator :: Join elems [Separator]
    | false, [] => [46]
    | false, elems => Join elems [Separator]

/-- Model of `filepath.Join(elem...)`: the elements from the first non-empty
one on are joined with the separator and the result is cleaned. -/
def filepathJoin : List Str → Str
  | [] => []
  | e :: es => if e = [] then filepathJoin es else Clean (Join (e :: es) [Separator])

/-! ## The body of a merge task (goatpad.go, lines 658-668) -/

/-- The loop of lines 658-666 over the fields of one record: `content` starts
as the template and has `{{column}}` replaced by the value, column by column;
`name` starts empty and takes the value of each column called `Name`. The
result is the pair `(content, name)`. -/
def substLoop (template : Str) (record : List (Str × Str)) : Str × Str :=
  record.foldl
    (fun acc cv =>
      (ReplaceAll acc.1 (placeholder cv.1) cv.2,
       if cv.1 = str "Name" then cv.2 else acc.2))
    (template, [])

/-- The text a task writes: `content` after the loop. -/
def render (template : Str) (record : List (Str × Str)) : Str :=
  (substLoop template record).1

/-- The variable `name` after the loop. -/
def nameOf (record : List (Str × Str)) : Str :=
  (substLoop [] record).2

/-- Line 667: `safeName`. -/
def safeName (unicodeLower : Str → Str) (name : Str) : Str :=
  ReplaceAll (ToLower unicodeLower name) (str " ") (str "_")

/-- Line 668: `outputFile`. -/
def outputFile (unicodeLower : Str → Str) (outputFolder : Str) (record : List (Str × Str)) : Str :=
  filepathJoin [outputFolder, str "resume_" ++ safeName unicodeLower (nameOf record) ++ str ".txt"]


/-! ## Well-formed templates (the notions of the specification) -/

/-- A string without the bytes `{` and `}`. -/
def BraceFree (s : Str) : Prop := ∀ b ∈ s, b ≠ 123 ∧ b ≠ 125

instance (s : Str) : Decidable (BraceFree s) := by unfold BraceFree; infer_instance

/-- A piece of a well-formed template: literal text or a token `{{name}}`. -/
inductive Seg where
  | lit (text : Str)
  | tok (name : Str)
  deriving DecidableEq

/-- The text of a piece. -/
def Seg.text : Seg → Str
  | .lit t => t
  | .tok n => placeholder n

/-- The payload of a piece: its literal text or its token name. -/
def Seg.payload : Seg → Str
  | .lit t => t
  | .tok n => n

/-- The template made of the given pieces. -/
def flatten : List Seg → Str
  | [] => []
  | seg :: segs => seg.text ++ flatten segs

/-- Every literal is brace-free and every token name is brace-free. -/
def WellFormed (segs : List Seg) : Prop := ∀ seg ∈ segs, BraceFree seg.payload

instance (segs : List Seg) : Decidable (WellFormed segs) := by unfold WellFormed; infer_instance

/-- The value of column `c` in a record, if `c` is one of its columns. -/
def valueOf (record : List (Str × Str)) (c : Str) : Option Str :=
  (record.find? (fun cv => cv.1 = c)).map (fun cv => cv.2)

/-- Reference rendering of one piece: a token whose name is a column becomes
the column's value, every other piece is unchanged. -/
def refSeg (record : List (Str × Str)) : Seg → Seg
  | .lit t => .lit t
  | .tok n =>
    match valueOf record n with
    | some v => .lit v
    | none => .tok n

/-- Reference rendering of a well-formed template: a single pass over its
pieces. -/
def reference (segs : List Seg) (record : List (Str × Str)) : Str :=
  flatten (segs.map (refSeg record))

/-- One column applied to the pieces of a well-formed template. -/
def substSeg (c v : Str) : Seg → Seg
  | .lit t => .lit t
  | .tok n => if n = c then .lit v else .tok n

/-! ## The environment of `mailMerge` -/

/-- What `mailMerge` gets from the outside world. -/
structure Env where
  /-- The result of `os.ReadFile(path)`: the content, or `none` on an error. -/
  readFile : Str → Option Str
  /-- The result of `db.Query("PRAGMA table_info(contacts)")`: `none` when the
  query fails; otherwise one entry per row the cursor yields, the column name
  that `rows.Scan` stores, or `none` when that scan fails. -/
  tableInfo : Option (List (Option Str))
  /-- The result of `db.Query(query)` for the text of a row query: `none` when
  the query fails; otherwise one entry per row the cursor yields, the values
  that `rows.Scan` stores (one per selected column), or `none` when that scan
  fails. -/
  query : Str → Option (List (Option (List Str)))
  /-- The function `strings.Map(unicode.ToLower, s)` used by `strings.ToLower`. -/
  unicodeLower : Str → Str
  /-- The file a path names: two paths name the same file exactly when they
  resolve to the same value (`out/resume_x.txt` and `../cwd/out/resume_x.txt`
  in a working directory called `cwd`, or two linked names). The merge creates
  regular files only, so the resolution is the same throughout a run. -/
  resolve : Str → Str
  /-- The files before the merge: the content of each file, `none` where there
  is no file. A file is named by the value `resolve` gives its paths. -/
  files : Str → Option Str

/-- An observable action of `mailMerge` other than a file write. -/
inductive Effect where
  | readFile (path : Str)
  | query (text : Str)
  | log (msg : String)
  deriving DecidableEq

/-- Where the goroutine running `mailMerge` stands. -/
inductive PC where
  /-- At `rows.Next()` of the row loop (line 643). -/
  | loop
  /-- After `wg.Add(1)` (line 653), at the send `semaphore <- struct{}{}`. -/
  | acquire (vals : List Str)
  /-- After the send (line 654), at the `go` statement. -/
  | spawn (vals : List Str)
  /-- At `wg.Wait()` (line 681). -/
  | wait
  /-- Returned after logging `Mail merge complete` (line 682). -/
  | done
  /-- Returned at one of the early `return`s (lines 607, 615, 637). -/
  | failed
  deriving DecidableEq

/-- Where a task goroutine (lines 655-679) stands. -/
inductive Phase where
  /-- Started, before `os.Create`. -/
  | created
  /-- `os.Create` succeeded, before `io.WriteString`. -/
  | opened
  /-- The body is over, the deferred calls have not run. -/
  | exiting
  /-- The deferred `<-semaphore` has run. -/
  | released
  /-- The deferred `wg.Done()` has run: the goroutine is over. -/
  | done
  deriving DecidableEq

/-- A task goroutine: the `vals` it was started with, its position and whether
its variable `err` is non-nil. -/
structure Task where
  vals : List Str
  phase : Phase
  err : Bool
  deriving DecidableEq

/-- The state of a run of `mailMerge`. -/
structure State where
  pc : PC
  /-- The variable `template`. -/
  template : Str
  /-- The variable `columns`. -/
  columns : List Str
  /-- The rows the cursor of the row query has still to yield. -/
  rows : List (Option (List Str))
  /-- The counter of the wait group `wg`. -/
  wg : Nat
  /-- The number of elements in the channel `semaphore`. -/
  semaphore : Nat
  /-- The task goroutines started so far, in the order of their start. -/
  tasks : List Task
  /-- The content of each file, a file being named by the value `Env.resolve`
  gives its paths. -/
  files : Str → Option Str
  /-- The actions so far, oldest first. -/
  trace : List Effect

/-- The capacity of the channel `semaphore` (line 642). -/
def semaphoreCap : Nat := 50

/-- The text of the schema query (line 612). -/
def tableInfoQuery : Str := str "PRAGMA table_info(contacts)"

/-- The text of the row query (line 633). -/
def selectQuery (columns : List Str) : Str :=
  str "SELECT " ++ Join columns (str ", ") ++ str " FROM contacts"

/-- The slice `columns` after the loop of lines 618-629: the names scanned, a
row whose scan fails being skipped. -/
def scannedColumns (info : List (Option Str)) : List Str := info.filterMap id

/-- The `Scan error` lines logged by the loop of lines 618-629. -/
def scanErrors (info : List (Option Str)) : List Effect :=
  (info.filter (fun r => r.isNone)).map (fun _ => Effect.log "Scan error")

/-- The state in which `mailMerge` has returned early. -/
def failedState (env : Env) (trace : List Effect) : State :=
  { pc := .failed, template := [], columns := [], rows := [], wg := 0, semaphore := 0,
    tasks := [], files := env.files, trace := trace }

/-- Lines 602-642 of `mailMerge`: the template is read, the schema and the
rows are queried. The result is the state at the head of the row loop, or the
state of an early return. -/
def mailMerge (env : Env) (templateFile : Str) : State :=
  match env.readFile templateFile with
  | none => failedState env [.readFile templateFile, .log "Template read error"]
  | some template =>
    match env.tableInfo with
    | none =>
      failedState env [.readFile templateFile, .query tableInfoQuery, .log "Table info error"]
    | some info =>
      match env.query (selectQuery (scannedColumns info)) with
      | none =>
        failedState env
          ([.readFile templateFile, .query tableInfoQuery] ++ scanErrors info
            ++ [.query (selectQuery (scannedColumns info)), .log "Query error"])
      | some rows =>
        { pc := .loop, template := template, columns := scannedColumns info, rows := rows,
          wg := 0, semaphore := 0, tasks := [], files := env.files,
          trace := [.readFile templateFile, .query tableInfoQuery] ++ scanErrors info
            ++ [.query (selectQuery (scannedColumns info))] }

/-! ## The concurrent part of `mailMerge` (lines 643-682) -/

/-- A scheduling choice: which goroutine takes its next step, with the outcome
of the file operation when the step is one. -/
inductive Event where
  /-- The goroutine running `mailMerge` takes a step. -/
  | producer
  /-- Task `i` calls `os.Create`, which succeeds (`ok`) or fails. -/
  | create (i : Nat) (ok : Bool)
  /-- Task `i` calls `io.WriteString`, which succeeds (`none`) or fails after
  writing `n` bytes (`some n`). -/
  | write (i : Nat) (failAt : Option Nat)
  /-- Task `i` runs its deferred `<-semaphore`. -/
  | release (i : Nat)
  /-- Task `i` runs its deferred `wg.Done()`. -/
  | done (i : Nat)
  deriving DecidableEq

/-- The record of a task: column `i` paired with value `i`. -/
def taskRecord (s : State) (t : Task) : List (Str × Str) := s.columns.zip t.vals

/-- The `outputFile` of a task. -/
def taskPath (env : Env) (outputFolder : Str) (s : State) (t : Task) : Str :=
  outputFile env.unicodeLower outputFolder (taskRecord s t)

/-- The file that the `outputFile` of a task names. -/
def taskFile (env : Env) (outputFolder : Str) (s : State) (t : Task) : Str :=
  env.resolve (taskPath env outputFolder s t)

/-- The `content` of a task after its loop. -/
def taskContent (s : State) (t : Task) : Str := render s.template (taskRecord s t)

/-- A file after `data` is written at offset 0 of it. -/
def writeAt (file : Option Str) (data : Str) : Str :=
  data ++ (file.getD []).drop data.length

/-- One step of the goroutine running `mailMerge`; `none` when it is blocked
or has returned. -/
def producerStep (s : State) : Option State :=
  match s.pc with
  | .loop =>
    match s.rows with
    | [] => some { s with pc := .wait }
    | none :: rows => some { s with rows := rows, trace := s.trace ++ [.log "Scan error"] }
    | some vals :: rows => some { s with rows := rows, wg := s.wg + 1, pc := .acquire vals }
  | .acquire vals =>
    if s.semaphore < semaphoreCap then
      some { s with semaphore := s.semaphore + 1, pc := .spawn vals }
    else none
  | .spawn vals =>
    some { s with tasks := s.tasks ++ [{ vals := vals, phase := .created, err := false }],
                  pc := .loop }
  | .wait =>
    if s.wg = 0 then some { s with pc := .done, trace := s.trace ++ [.log "Mail merge complete"] }
    else none
  | .done => none
  | .failed => none

/-- One step of the system for a scheduling choice; `none` when the chosen
goroutine cannot take that step. -/
def step (env : Env) (outputFolder : Str) (e : Event) (s : State) : Option State :=
  match e with
  | .producer => producerStep s
  | .create i ok =>
    match s.tasks[i]? with
    | some t =>
      if t.phase = .created then
        if ok then
          some { s with
            files := Function.update s.files (taskFile env outputFolder s t) (some []),
            tasks := s.tasks.set i { t with phase := .opened } }
        else
          some { s with
            tasks := s.tasks.set i { t with phase := .exiting, err := true },
            trace := s.trace ++ [.log "Create error"] }
      else none
    | none => none
  | .write i failAt =>
    match s.tasks[i]? with
    | some t =>
      if t.phase = .opened then
        match failAt with
        | none =>
          some { s with
            files := Function.update s.files (taskFile env outputFolder s t)
              (some (writeAt (s.files (taskFile env outputFolder s t)) (taskContent s t))),
            tasks := s.tasks.set i { t with phase := .exiting } }
        | some n =>
          some { s with
            files := Function.update s.files (taskFile env outputFolder s t)
              (some (writeAt (s.files (taskFile env outputFolder s t))
                ((taskContent s t).take n))),
            tasks := s.tasks.set i { t with phase := .exiting, err := true },
            trace := s.trace ++ [.log "Write error"] }
      else none
    | none => none
  | .release i =>
    match s.tasks[i]? with
    | some t =>
      if t.phase = .exiting ∧ 0 < s.semaphore then
        some { s with semaphore := s.semaphore - 1,
                      tasks := s.tasks.set i { t with phase := .released } }
      else none
    | none => none
  | .done i =>
    match s.tasks[i]? with
    | some t =>
      if t.phase = .released ∧ 0 < s.wg then
        some { s with wg := s.wg - 1, tasks := s.tasks.set i { t with phase := .done } }
      else none
    | none => none

/-- The state after a schedule: each choice is taken in turn, a choice that is
not enabled leaves the state as it is. -/
def exec (env : Env) (outputFolder : Str) (schedule : List Event) (s : State) : State :=
  schedule.foldl (fun s e => (step env outputFolder e s).getD s) s

/-- A task that holds a slot of the semaphore: started and not yet past the
deferred `<-semaphore` that runs when the task function exits. -/
def Task.isRunning (t : Task) : Bool :=
  decide (t.phase = .created ∨ t.phase = .opened ∨ t.phase = .exiting)

/-- A task whose `wg.Done()` has not run. -/
def Task.isUnfinished (t : Task) : Bool := decide (t.phase ≠ .done)

/-- The number of tasks that have been started and have not yet exited, that
is that have not yet reached the deferred `<-semaphore`. -/
def running (s : State) : Nat := s.tasks.countP Task.isRunning

/-- The number of tasks whose `wg.Done()` has not run. -/
def unfinished (s : State) : Nat := s.tasks.countP Task.isUnfinished

/-- The number of tasks dispatched. -/
def dispatched (s : State) : Nat := s.tasks.length

/-- The number of task completions, that is of `wg.Done()` calls made. -/
def completions (s : State) : Nat := s.tasks.countP (fun t => decide (t.phase = .done))

/-- The slots of the semaphore held by the goroutine running `mailMerge` for
a task it has not started yet. -/
def heldByProducer : PC → Nat
  | .spawn _ => 1
  | _ => 0

/-- The units of the wait group added by the goroutine running `mailMerge`
for a task it has not started yet. -/
def addedByProducer : PC → Nat
  | .acquire _ => 1
  | .spawn _ => 1
  | _ => 0

/-- The values of the row the goroutine running `mailMerge` is dispatching. -/
def inHand : PC → List (List Str)
  | .acquire vals => [vals]
  | .spawn vals => [vals]
  | _ => []

/-- The invariant of the scheduler. -/
structure SchedInv (s : State) : Prop where
  sem_eq : s.semaphore = running s + heldByProducer s.pc
  sem_le : s.semaphore ≤ semaphoreCap
  wg_eq : s.wg = unfinished s + addedByProducer s.pc
  complete : s.pc = .done → s.wg = 0
  norows : s.pc = .wait ∨ s.pc = .done ∨ s.pc = .failed → s.rows = []
  notasks : s.pc = .failed → s.tasks = []

/-- What a step of task `i` does: the task goes from `t` to `t'`, nothing else
in the list of tasks changes, and the files, the semaphore and the wait group
change as the step taken prescribes. -/
structure TaskStep (env : Env) (outputFolder : Str) (s s' : State) (i : Nat) (t t' : Task) :
    Prop where
  get : s.tasks[i]? = some t
  tasks : s'.tasks = s.tasks.set i t'
  vals : t'.vals = t.vals
  pc : s'.pc = s.pc
  rows : s'.rows = s.rows
  template : s'.template = s.template
  columns : s'.columns = s.columns
  trace : s'.trace = s.trace ∨ s'.trace = s.trace ++ [.log "Create error"]
    ∨ s'.trace = s.trace ++ [.log "Write error"]
  move :
    (t.phase = .created ∧ t'.phase = .opened ∧ t'.err = t.err
      ∧ s'.files = Function.update s.files (taskFile env outputFolder s t) (some [])
      ∧ s'.semaphore = s.semaphore ∧ s'.wg = s.wg)
    ∨ (t.phase = .created ∧ t'.phase = .exiting ∧ t'.err = true
      ∧ s'.files = s.files ∧ s'.semaphore = s.semaphore ∧ s'.wg = s.wg)
    ∨ (t.phase = .opened ∧ t'.phase = .exiting ∧ t'.err = t.err
      ∧ s'.files = Function.update s.files (taskFile env outputFolder s t)
          (some (writeAt (s.files (taskFile env outputFolder s t)) (taskContent s t)))
      ∧ s'.semaphore = s.semaphore ∧ s'.wg = s.wg)
    ∨ (t.phase = .opened ∧ t'.phase = .exiting ∧ t'.err = true
      ∧ (∃ n, s'.files = Function.update s.files (taskFile env outputFolder s t)
          (some (writeAt (s.files (taskFile env outputFolder s t)) ((taskContent s t).take n))))
      ∧ s'.semaphore = s.semaphore ∧ s'.wg = s.wg)
    ∨ (t.phase = .exiting ∧ t'.phase = .released ∧ t'.err = t.err
      ∧ s'.files = s.files ∧ s'.semaphore + 1 = s.semaphore ∧ s'.wg = s.wg)
    ∨ (t.phase = .released ∧ t'.phase = .done ∧ t'.err = t.err
      ∧ s'.files = s.files ∧ s'.semaphore = s.semaphore ∧ s'.wg + 1 = s.wg)

/-- The files named by the output paths of the tasks started so far, in the
order of their start. -/
def taskFiles (env : Env) (outputFolder : Str) (s : State) : List Str :=
  s.tasks.map (taskFile env outputFolder s)

/-- The invariant of the files written by the tasks. A task that has not got
past `os.Create` has a nil `err`; for a task whose output file is the file of
no other task, the file is empty between its `os.Create` and its
`io.WriteString`, and holds the task's content once the body is over with a
nil `err`. -/
def FileInv (env : Env) (outputFolder : Str) (s : State) : Prop :=
  ∀ (i : Nat) (t : Task), s.tasks[i]? = some t →
    ((t.phase = .created ∨ t.phase = .opened) → t.err = false)
    ∧ ((taskFiles env outputFolder s).count (taskFile env outputFolder s t) = 1 →
        (t.phase = .opened → s.files (taskFile env outputFolder s t) = some [])
        ∧ (t.phase ≠ .created → t.phase ≠ .opened → t.err = false →
            s.files (taskFile env outputFolder s t) = some (taskContent s t)))

/-- The records of a merge: the rows whose scan succeeds, each paired with the
columns. -/
def recordsOf (columns : List Str) (rows : List (Option (List Str))) : List (List (Str × Str)) :=
  (rows.filterMap id).map (fun vals => columns.zip vals)

/-- What stays fixed in a run that starts in `s0`: the template, the columns,
and the sequence of rows scanned, which is made of the rows of the tasks
started, the row being dispatched and the rows still to come. -/
structure SetupInv (s0 s : State) : Prop where
  template : s.template = s0.template
  columns : s.columns = s0.columns
  vals : s.tasks.map Task.vals ++ inHand s.pc ++ s.rows.filterMap id = s0.rows.filterMap id

/-- Files that are the output file of no task are as they were. -/
def FrameInv (env : Env) (outputFolder : Str) (s : State) : Prop :=
  ∀ p, p ∉ taskFiles env outputFolder s → s.files p = env.files p

/-- The steps a task can still take. -/
def phaseWeight : Phase → Nat
  | .created => 4
  | .opened => 3
  | .exiting => 2
  | .released => 1
  | .done => 0

/-- The steps the goroutine running `mailMerge` can still take before its
next row or its return. -/
def pcWeight : PC → Nat
  | .loop => 2
  | .acquire _ => 8
  | .spawn _ => 7
  | .wait => 1
  | .done => 0
  | .failed => 0

/-- The steps a task can still take. -/
def Task.weight (t : Task) : Nat := phaseWeight t.phase

/-- A bound on the number of steps that can still be taken from a state. -/
def stepsLeft (s : State) : Nat :=
  7 * s.rows.length + pcWeight s.pc + (s.tasks.map Task.weight).sum

/-- The number of choices of a schedule that are enabled when they are made,
that is the number of steps taken. -/
def stepsTaken (env : Env) (outputFolder : Str) : List Event → State → Nat
  | [], _ => 0
  | e :: es, s =>
    match step env outputFolder e s with
    | some s' => stepsTaken env outputFolder es s' + 1
    | none => stepsTaken env outputFolder es s

/-- The completion line is in the log only once `mailMerge` has returned
through line 682. -/
def CompleteLogged (s : State) : Prop :=
  Effect.log "Mail merge complete" ∈ s.trace → s.pc = .done

/-- The producer takes `n` steps. -/
def producerSteps (n : Nat) : List Event := List.replicate n Event.producer

/-- Scenario C of the specification: the template `ID {{ID}}` and two records
named `Bob Lee`, with IDs 1 and 2; no file exists before the merge. -/
def collisionEnv : Env where
  readFile := fun p => if p = str "letter.txt" then some (str "ID " ++ placeholder (str "ID")) else none
  tableInfo := some [some (str "Name"), some (str "ID")]
  query := fun q =>
    if q = str "SELECT Name, ID FROM contacts" then
      some [some [str "Bob Lee", str "1"], some [str "Bob Lee", str "2"]]
    else none
  unicodeLower := id
  resolve := id
  files := fun _ => none

/-- A complete run of two tasks in which task 0 writes first. -/
def firstThenSecond : List Event :=
  producerSteps 7 ++ [.create 0 true, .create 1 true, .write 0 none, .write 1 none,
    .release 0, .release 1, .done 0, .done 1, .producer]

/-- A complete run of two tasks in which task 1 writes first. -/
def secondThenFirst : List Event :=
  producerSteps 7 ++ [.create 0 true, .create 1 true, .write 1 none, .write 0 none,
    .release 0, .release 1, .done 0, .done 1, .producer]

/-- A merge of three rows, `Ada` with ID 7, a row whose scan fails, and
`Bob Lee` with ID 3, over a schema with an entry whose scan fails. -/
def skippedRowEnv : Env where
  readFile := fun p =>
    if p = str "letter.txt" then some (str "Dear " ++ placeholder (str "Name")) else none
  tableInfo := some [some (str "Name"), none, some (str "ID")]
  query := fun q =>
    if q = str "SELECT Name, ID FROM contacts" then
      some [some [str "Ada", str "7"], none, some [str "Bob Lee", str "3"]]
    else none
  unicodeLower := id
  resolve := id
  files := fun _ => none

/-- A complete run over the three rows of `skippedRowEnv`, in which the
`os.Create` of task 0 fails. -/
def firstFails : List Event :=
  producerSteps 8 ++ [.create 0 false, .create 1 true, .write 1 none,
    .release 0, .release 1, .done 0, .done 1, .producer]

/-- A complete run over the three rows of `skippedRowEnv` in which every file
operation succeeds and task 0 writes first. -/
def adaThenBob : List Event :=
  producerSteps 8 ++ [.create 0 true, .create 1 true, .write 0 none, .write 1 none,
    .release 0, .release 1, .done 0, .done 1, .producer]

/-- A complete run over the three rows of `skippedRowEnv` in which every file
operation succeeds and task 1 runs to its end before task 0 starts writing. -/
def bobThenAda : List Event :=
  producerSteps 8 ++ [.create 1 true, .write 1 none, .release 1, .done 1,
    .create 0 true, .write 0 none, .release 0, .done 0, .producer]

/-- A merge run in a working directory called `cwd`, with the output
directory `out`: the template `ID {{ID}}` and two records, named `x` and
`/../../../cwd/out/resume_x`, whose output paths `out/resume_x.txt` and
`../cwd/out/resume_x.txt` name one file. -/
def aliasEnv : Env where
  readFile := fun p => if p = str "letter.txt" then some (str "ID " ++ placeholder (str "ID")) else none
  tableInfo := some [some (str "Name"), some (str "ID")]
  query := fun q =>
    if q = str "SELECT Name, ID FROM contacts" then
      some [some [str "x", str "1"], some [str "/../../../cwd/out/resume_x", str "2"]]
    else none
  unicodeLower := id
  resolve := fun p => if p = str "../cwd/out/resume_x.txt" then str "out/resume_x.txt" else p
  files := fun _ => none

/-! ## The batch branch of `main` (goatpad.go, lines 28-47) -/

/-- An action of `main`. -/
inductive MainStep where
  /-- The call `log.Fatal(msg, ...)`: the message is logged and the process exits. -/
  | logFatal (msg : String)
  /-- The call `sql.Open(driverName, dataSourceName)`. -/
  | sqlOpen (driverName dataSourceName : Str)
  /-- The call `mailMerge(db, templateFile, outputFolder)` on the handle `db`
  of the database opened from `dataSourceName`. -/
  | callMailMerge (dataSourceName templateFile outputFolder : Str)
  /-- The interactive branch (line 49 on), which is outside this model. -/
  | interactive
  deriving DecidableEq

/-- The drivers registered with `database/sql` when `main` starts: line 20
brings in the package `modernc.org/sqlite`, which registers the driver
`sqlite`. -/
def registeredDrivers : List Str := [str "sqlite"]

/-- Model of `sql.Open(driverName, dataSourceName)`: an error (`none`) for a
driver name that is not registered; for a registered driver that opens its
connections lazily, as the `sqlite` driver does, a handle and no error, the
database file being touched only by the first query. The handle is modelled
by the data source name. -/
def sqlOpen (driverName dataSourceName : Str) : Option Str :=
  if driverName ∈ registeredDrivers then some dataSourceName else none

/-- The actions of `main` for the values of the flags `--batch-merge`,
`--template`, `--db` and `--output`. -/
def main (batch : Bool) (template dbFile output : Str) : List MainStep :=
  if batch then
    if template = [] ∨ dbFile = [] ∨ output = [] then
      [.logFatal "Missing required flags: --template, --db, --output"]
    else
      match sqlOpen (str "sqlite") dbFile with
      | some db => [.sqlOpen (str "sqlite") dbFile, .callMailMerge db template output]
      | none => [.sqlOpen (str "sqlite") dbFile, .logFatal "Failed to open database:"]
  else [.interactive]

/-! ## Parent directory and base name of a path -/

/-- Model of `filepath.Dir(path)` (Unix): the path up to and including its
last separator, cleaned. -/
def Dir (path : Str) : Str :=
  Clean (path.reverse.dropWhile (fun c => decide (c ≠ Separator))).reverse

/-- Model of `filepath.Base(path)` (Unix): the last element of the path,
trailing separators being ignored; `.` for the empty path and `/` for a path
of separators only. -/
def Base (path : Str) : Str :=
  if path = [] then [46]
  else
    match ((path.reverse.dropWhile (fun c => decide (c = Separator))).takeWhile
        (fun c => decide (c ≠ Separator))).reverse with
    | [] => [Separator]
    | b => b

/-- The path of the file `file` placed directly in the cleaned directory
`dir`. -/
def placeUnder (dir file : Str) : Str :=
  if dir = [46] then file
  else if dir = [Separator] then Separator :: file
  else dir ++ Separator :: file

/-! ## Lemmas on `ReplaceAll` -/

theorem replaceFrom_skip (old new : Str) : ∀ (k : Nat) (s : Str),
    replaceFrom old new k s = replaceFrom old new 0 (s.drop k)
  | 0, s => by simp
  | k + 1, [] => by simp [replaceFrom]
  | k + 1, _ :: cs => by simpa [replaceFrom] using replaceFrom_skip old new k cs

theorem replaceFrom_match (old new rest : Str) (h : old ≠ []) :
    replaceFrom old new 0 (old ++ rest) = new ++ replaceFrom old new 0 rest := by
  cases old with
  | nil => exact absurd rfl h
  | cons c cs =>
    have hp : (c :: cs).isPrefixOf (c :: (cs ++ rest)) = true := by
      rw [List.isPrefixOf_iff_prefix]; exact ⟨rest, rfl⟩
    show replaceFrom (c :: cs) new 0 (c :: (cs ++ rest)) = _
    rw [replaceFrom, if_pos hp, replaceFrom_skip]
    simp

theorem replaceFrom_pass (old new : Str) : ∀ (B rest : Str),
    (∀ p, p < B.length → ¬ old <+: (B ++ rest).drop p) →
    replaceFrom old new 0 (B ++ rest) = B ++ replaceFrom old new 0 rest
  | [], rest, _ => rfl
  | b :: B, rest, h => by
    have h0 : ¬ old <+: (b :: (B ++ rest)) := h 0 (by simp)
    have hp : ¬ old.isPrefixOf (b :: (B ++ rest)) = true := by
      rw [List.isPrefixOf_iff_prefix]; exact h0
    show replaceFrom old new 0 (b :: (B ++ rest)) = b :: (B ++ _)
    rw [replaceFrom, if_neg hp]
    congr 1
    exact replaceFrom_pass old new B rest (fun p hp => by simpa using h (p+1) (by simpa using hp))

theorem infix_append_cases (pat : Str) : ∀ (B rest : Str), pat <:+: B ++ rest →
    (∃ p, p < B.length ∧ pat <+: (B ++ rest).drop p) ∨ pat <:+: rest
  | [], _, h => Or.inr h
  | b :: B, rest, h => by
    rcases List.infix_cons_iff.mp h with h | h
    · exact Or.inl ⟨0, by simp, h⟩
    · rcases infix_append_cases pat B rest h with ⟨p, hp, hpre⟩ | h
      · exact Or.inl ⟨p + 1, by simpa using hp, by simpa using hpre⟩
      · exact Or.inr h

/-- No string starting with an opening brace matches inside a block that has no
opening brace. -/
theorem no_open_in_block (t : Str) : ∀ (B rest : Str) (q : Nat),
    (∀ x ∈ B, x ≠ 123) → q < B.length → ¬ (123 :: t) <+: (B ++ rest).drop q
  | [], _, _, _, hq => by simp at hq
  | b :: B, rest, 0, hB, _ => by
    intro h
    have h1 : (123 :: t) <+: b :: (B ++ rest) := h
    exact hB b (List.mem_cons_self _ _) (List.cons_prefix_cons.mp h1).1.symm
  | b :: B, rest, q + 1, hB, hq => by
    simpa using no_open_in_block t B rest q (fun x hx => hB x (List.mem_cons_of_mem _ hx)) (by simpa using hq)

theorem braceFree_cancel : ∀ (a b x y : Str), (∀ c ∈ a, c ≠ 125) → (∀ c ∈ b, c ≠ 125) →
    a ++ 125 :: x = b ++ 125 :: y → a = b
  | [], [], _, _, _, _, _ => rfl
  | [], c :: b, _, _, _, hb, h => by
    simp at h; exact absurd h.1.symm (hb c (by simp))
  | c :: a, [], _, _, ha, _, h => by
    simp at h; exact absurd h.1 (ha c (by simp))
  | c :: a, d :: b, x, y, ha, hb, h => by
    simp at h
    rw [h.1, braceFree_cancel a b x y (fun c hc => ha c (by simp [hc])) (fun c hc => hb c (by simp [hc])) h.2]

theorem placeholder_eq (c : Str) : placeholder c = 123 :: 123 :: (c ++ [125, 125]) := rfl

theorem placeholder_length (c : Str) : (placeholder c).length = c.length + 4 := by
  simp [placeholder_eq]

theorem placeholder_ne_nil (c : Str) : placeholder c ≠ [] := by simp [placeholder_eq]

/-- Two tokens with brace-free names do not overlap: a token can start inside
another one only at its first byte, and then the names agree. -/
theorem placeholder_no_overlap (a b rest : Str) (ha : BraceFree a) (hb : BraceFree b) :
    ∀ p, p < (placeholder a).length → placeholder b <+: (placeholder a ++ rest).drop p →
      p = 0 ∧ a = b
  | 0, _, h => by
    obtain ⟨z, hz⟩ := h
    simp [placeholder_eq] at hz
    exact ⟨rfl, (braceFree_cancel b a _ _ (fun c hc => (hb c hc).2) (fun c hc => (ha c hc).2) hz).symm⟩
  | 1, _, h => by
    exfalso
    have h1 : (123 :: 123 :: (b ++ [125, 125])) <+: 123 :: ((a ++ [125, 125]) ++ rest) := by
      simpa [placeholder_eq] using h
    have h2 := (List.cons_prefix_cons.mp h1).2
    refine no_open_in_block _ (a ++ [125, 125]) rest 0 ?_ (by simp) (by simpa using h2)
    intro x hx
    rcases List.mem_append.mp hx with hx | hx
    · exact (ha x hx).1
    · simp at hx; omega
  | q + 2, hq, h => by
    exfalso
    have h1 : (123 :: 123 :: (b ++ [125, 125])) <+: ((a ++ [125, 125]) ++ rest).drop q := by
      simpa [placeholder_eq] using h
    refine no_open_in_block _ (a ++ [125, 125]) rest q ?_ ?_ h1
    · intro x hx
      rcases List.mem_append.mp hx with hx | hx
      · exact (ha x hx).1
      · simp at hx; omega
    · rw [placeholder_length] at hq
      simp; omega

theorem ReplaceAll_placeholder (s c v : Str) :
    ReplaceAll s (placeholder c) v = replaceFrom (placeholder c) v 0 s := by
  rw [ReplaceAll, if_neg (placeholder_ne_nil c)]

/-- The loop of `render` as a fold over the content alone. -/
theorem substLoop_fst (record : List (Str × Str)) : ∀ (template name : Str),
    (record.foldl
      (fun (acc : Str × Str) (cv : Str × Str) =>
        (ReplaceAll acc.1 (placeholder cv.1) cv.2, if cv.1 = str "Name" then cv.2 else acc.2))
      (template, name)).1
    = record.foldl (fun content cv => ReplaceAll content (placeholder cv.1) cv.2) template := by
  induction record with
  | nil => intro _ _; rfl
  | cons cv rest ih => intro template name; simp only [List.foldl_cons]; exact ih _ _

theorem render_eq_foldl (template : Str) (record : List (Str × Str)) :
    render template record
      = record.foldl (fun content cv => ReplaceAll content (placeholder cv.1) cv.2) template :=
  substLoop_fst record template []

theorem render_nil (template : Str) : render template [] = template := rfl

theorem render_cons (template : Str) (cv : Str × Str) (record : List (Str × Str)) :
    render template (cv :: record) = render (ReplaceAll template (placeholder cv.1) cv.2) record := by
  rw [render_eq_foldl, render_eq_foldl]; rfl

/-- On a well-formed template one `ReplaceAll` acts piece by piece. -/
theorem ReplaceAll_flatten (c v : Str) (hc : BraceFree c) : ∀ (segs : List Seg), WellFormed segs →
    ReplaceAll (flatten segs) (placeholder c) v = flatten (segs.map (substSeg c v))
  | [], _ => by simp [ReplaceAll_placeholder, flatten, replaceFrom]
  | .lit t :: segs, h => by
    have ih := ReplaceAll_flatten c v hc segs (fun s hs => h s (List.mem_cons_of_mem _ hs))
    rw [ReplaceAll_placeholder] at ih ⊢
    have ht : BraceFree t := h (.lit t) (List.mem_cons_self _ _)
    show replaceFrom (placeholder c) v 0 (t ++ flatten segs) = t ++ flatten (segs.map (substSeg c v))
    rw [replaceFrom_pass _ _ t (flatten segs), ih]
    intro p hp
    exact no_open_in_block _ t _ p (fun x hx => (ht x hx).1) hp
  | .tok n :: segs, h => by
    have ih := ReplaceAll_flatten c v hc segs (fun s hs => h s (List.mem_cons_of_mem _ hs))
    rw [ReplaceAll_placeholder] at ih ⊢
    have hn : BraceFree n := h (.tok n) (List.mem_cons_self _ _)
    by_cases hnc : n = c
    · subst hnc
      show replaceFrom (placeholder n) v 0 (placeholder n ++ flatten segs) = _
      rw [replaceFrom_match _ _ _ (placeholder_ne_nil n), ih]
      simp [substSeg, flatten, Seg.text]
    · show replaceFrom (placeholder c) v 0 (placeholder n ++ flatten segs) = _
      rw [replaceFrom_pass _ _ (placeholder n) (flatten segs), ih]
      · simp [substSeg, hnc, flatten, Seg.text]
      · intro p hp hpre
        exact hnc (placeholder_no_overlap n c _ hn hc p hp hpre).2

theorem substSeg_wellFormed (c v : Str) (hv : BraceFree v) (segs : List Seg)
    (h : WellFormed segs) : WellFormed (segs.map (substSeg c v)) := by
  intro seg hseg
  obtain ⟨seg0, h0, rfl⟩ := List.mem_map.mp hseg
  cases seg0 with
  | lit t => exact h _ h0
  | tok n =>
    by_cases hn : n = c
    · simpa [substSeg, hn, Seg.payload] using hv
    · simpa [substSeg, hn] using h _ h0

theorem refSeg_nil (seg : Seg) : refSeg [] seg = seg := by
  cases seg <;> rfl

theorem refSeg_cons (c v : Str) (record : List (Str × Str)) (seg : Seg) :
    refSeg ((c, v) :: record) seg = refSeg record (substSeg c v seg) := by
  cases seg with
  | lit t => rfl
  | tok n =>
    by_cases hn : n = c
    · subst hn; simp [refSeg, substSeg, valueOf]
    · have hcn : ¬ c = n := fun h => hn h.symm
      simp [refSeg, substSeg, valueOf, hn, hcn]

/-- On a well-formed template with brace-free column names and values the
sequential loop computes the reference rendering. -/
theorem render_flatten : ∀ (record : List (Str × Str)) (segs : List Seg), WellFormed segs →
    (∀ cv ∈ record, BraceFree cv.1 ∧ BraceFree cv.2) →
    render (flatten segs) record = reference segs record
  | [], segs, _, _ => by
    have hid : segs.map (refSeg []) = segs := by
      rw [List.map_congr_left (fun seg _ => refSeg_nil seg), List.map_id']
    rw [render_nil, reference, hid]
  | (c, v) :: record, segs, hwf, hrec => by
    have hcv := hrec (c, v) (List.mem_cons_self _ _)
    rw [render_cons, ReplaceAll_flatten c v hcv.1 segs hwf,
      render_flatten record _ (substSeg_wellFormed c v hcv.2 segs hwf)
        (fun cv h => hrec cv (List.mem_cons_of_mem _ h))]
    simp only [reference, List.map_map]
    congr 1
    apply List.map_congr_left
    intro seg _
    exact (refSeg_cons c v record seg).symm

/-- In a well-formed template a token with a brace-free name occurs only as
one of the pieces. -/
theorem tok_of_occurrence (c : Str) (hc : BraceFree c) : ∀ (segs : List Seg), WellFormed segs →
    placeholder c <:+: flatten segs → Seg.tok c ∈ segs
  | [], _, h => by
    have := List.eq_nil_of_infix_nil h
    exact absurd this (placeholder_ne_nil c)
  | seg :: segs, hwf, h => by
    rcases infix_append_cases _ seg.text (flatten segs) h with ⟨p, hp, hpre⟩ | h
    · cases seg with
      | lit t =>
        exact absurd hpre (no_open_in_block _ t _ p
          (fun x hx => (hwf (.lit t) (List.mem_cons_self _ _) x hx).1) hp)
      | tok n =>
        have := (placeholder_no_overlap n c _ (hwf (.tok n) (List.mem_cons_self _ _)) hc p hp hpre).2
        subst this
        exact List.mem_cons_self _ _
    · exact List.mem_cons_of_mem _
        (tok_of_occurrence c hc segs (fun s hs => hwf s (List.mem_cons_of_mem _ hs)) h)

theorem valueOf_isSome (record : List (Str × Str)) (c : Str) (hc : c ∈ record.map Prod.fst) :
    ∃ v, valueOf record c = some v := by
  induction record with
  | nil => simp at hc
  | cons cv rest ih =>
    by_cases h : cv.1 = c
    · exact ⟨cv.2, by simp [valueOf, h]⟩
    · have hc2 : c ∈ rest.map Prod.fst := by
        rcases List.mem_cons.mp hc with h1 | h1
        · exact absurd h1.symm h
        · exact h1
      obtain ⟨v, hv⟩ := ih hc2
      exact ⟨v, by simpa [valueOf, h] using hv⟩

theorem reference_wellFormed (record : List (Str × Str)) (hv : ∀ cv ∈ record, BraceFree cv.2)
    (segs : List Seg) (h : WellFormed segs) : WellFormed (segs.map (refSeg record)) := by
  intro seg hseg
  obtain ⟨seg0, h0, rfl⟩ := List.mem_map.mp hseg
  cases seg0 with
  | lit t => exact h _ h0
  | tok n =>
    cases hval : valueOf record n with
    | none => simpa [refSeg, hval] using h _ h0
    | some v =>
      obtain ⟨cv, hcv, hcv2⟩ : ∃ cv ∈ record, cv.2 = v := by
        simp only [valueOf, Option.map_eq_some'] at hval
        obtain ⟨cv, hfind, h2⟩ := hval
        exact ⟨cv, List.mem_of_find?_eq_some hfind, h2⟩
      simpa [refSeg, hval, Seg.payload, ← hcv2] using hv cv hcv

/-- Occurrences of a token are preserved by the replacement of a different
token (names brace-free), whatever the text around them. -/
theorem replaceFrom_preserves (c d v : Str) (hc : BraceFree c) (hd : BraceFree d) (hcd : c ≠ d) :
    ∀ (n : Nat) (s : Str), s.length ≤ n → placeholder c <:+: s →
      placeholder c <:+: replaceFrom (placeholder d) v 0 s
  | _, [], _, h => absurd (List.eq_nil_of_infix_nil h) (placeholder_ne_nil c)
  | 0, _ :: _, hlen, _ => by simp at hlen
  | n + 1, x :: xs, hlen, h => by
    rcases List.infix_cons_iff.mp h with hpre | hin
    · obtain ⟨post, hpost⟩ := hpre
      rw [← hpost, replaceFrom_pass _ _ (placeholder c) post]
      · exact ⟨[], replaceFrom (placeholder d) v 0 post, by simp⟩
      · intro p hp hpre
        exact hcd (placeholder_no_overlap c d _ hc hd p hp hpre).2
    · by_cases hp : placeholder d <+: x :: xs
      · obtain ⟨rest, hrest⟩ := hp
        rw [← hrest, replaceFrom_match _ _ _ (placeholder_ne_nil d)]
        have hin2 : placeholder c <:+: rest := by
          rw [← hrest] at h
          rcases infix_append_cases _ _ _ h with ⟨p, hp, hpre⟩ | h2
          · exact absurd (placeholder_no_overlap d c _ hd hc p hp hpre).2.symm hcd
          · exact h2
        have hl : rest.length ≤ n := by
          have := congrArg List.length hrest
          simp [placeholder_length] at this hlen
          omega
        exact (replaceFrom_preserves c d v hc hd hcd n rest hl hin2).trans ⟨v, [], by simp⟩
      · have hp2 : ¬ (placeholder d).isPrefixOf (x :: xs) = true := by
          rw [List.isPrefixOf_iff_prefix]; exact hp
        rw [replaceFrom, if_neg hp2]
        exact (replaceFrom_preserves c d v hc hd hcd n xs (by simpa using hlen) hin).trans
          ⟨[x], [], by simp⟩

theorem render_preserves (c : Str) (hc : BraceFree c) : ∀ (record : List (Str × Str)) (template : Str),
    (∀ cv ∈ record, BraceFree cv.1) → c ∉ record.map Prod.fst →
    placeholder c <:+: template → placeholder c <:+: render template record
  | [], _, _, _, h => by simpa [render_nil] using h
  | (d, v) :: record, template, hrec, hnot, h => by
    rw [render_cons]
    have hcd : c ≠ d := fun e => hnot (by simp [e])
    refine render_preserves c hc record _ (fun cv hcv => hrec cv (List.mem_cons_of_mem _ hcv))
      (fun hmem => hnot (by simp at hmem ⊢; exact Or.inr hmem)) ?_
    rw [ReplaceAll_placeholder]
    exact replaceFrom_preserves c d v hc (hrec (d, v) (List.mem_cons_self _ _)) hcd _ _ (le_refl _) h

/-! ## Claims on the substitution loop -/

/-- C1 (as stated, refuted). Three records with a column whose placeholder
occurs in the rendered text: (a) a well-formed template `{{A}}` and the value
`{{A}}` for column `A`; (b) brace-free column name `ab` and value `a` on the
template `{{{{ab}}b}}`, which is not well formed; (c) the well-formed template
`{{a}}{{q}}{{b}}` with brace-free values and the column name `a}}{{b`. -/
theorem C1_counterexample :
    (str "A" ∈ [(str "A", placeholder (str "A"))].map Prod.fst
      ∧ placeholder (str "A") <:+: render (placeholder (str "A")) [(str "A", placeholder (str "A"))])
    ∧ (str "ab" ∈ [(str "ab", str "a")].map Prod.fst
      ∧ placeholder (str "ab")
          <:+: render (lbraces ++ placeholder (str "ab") ++ str "b" ++ rbraces) [(str "ab", str "a")])
    ∧ (str "a" ++ rbraces ++ lbraces ++ str "b"
          ∈ [(str "a" ++ rbraces ++ lbraces ++ str "b", str "v"), (str "q", str "")].map Prod.fst
      ∧ placeholder (str "a" ++ rbraces ++ lbraces ++ str "b")
          <:+: render (placeholder (str "a") ++ placeholder (str "q") ++ placeholder (str "b"))
                [(str "a" ++ rbraces ++ lbraces ++ str "b", str "v"), (str "q", str "")]) := by
  refine ⟨⟨by decide, [], [], by decide⟩, ⟨by decide, [], [], by decide⟩, ⟨by decide, [], [], by decide⟩⟩

/-- C1 (amended). For a well-formed template (brace-free literals and tokens
with brace-free names) and a record whose column names and values are
brace-free, the rendered text contains no occurrence of `{{c}}` for any
column `c` of the record. -/
theorem C1_render_has_no_known_placeholder (segs : List Seg) (record : List (Str × Str)) (c : Str)
    (hwf : WellFormed segs) (hrec : ∀ cv ∈ record, BraceFree cv.1 ∧ BraceFree cv.2)
    (hc : c ∈ record.map Prod.fst) :
    ¬ placeholder c <:+: render (flatten segs) record := by
  intro h
  rw [render_flatten record segs hwf hrec] at h
  have hcfree : BraceFree c := by
    obtain ⟨cv, hcv, rfl⟩ := List.mem_map.mp hc
    exact (hrec cv hcv).1
  have hmem := tok_of_occurrence c hcfree _
    (reference_wellFormed record (fun cv hcv => (hrec cv hcv).2) segs hwf) h
  obtain ⟨seg, _, hseg⟩ := List.mem_map.mp hmem
  obtain ⟨v, hv⟩ := valueOf_isSome record c hc
  cases seg with
  | lit t => simp [refSeg] at hseg
  | tok n =>
    cases hn : valueOf record n with
    | some w => simp [refSeg, hn] at hseg
    | none =>
      simp [refSeg, hn] at hseg
      rw [hseg, hv] at hn
      exact absurd hn (by simp)

/-- Witness for C1 (amended): the template and record of Scenario A. -/
theorem C1_render_has_no_known_placeholder_witness :
    ¬ placeholder (str "Name")
        <:+: render
          (flatten [.lit (str "Dear "), .tok (str "Name"), .lit (str ",\nYour ID is "),
            .tok (str "ID"), .lit (str ".")])
          [(str "Name", str "Ada"), (str "ID", str "7")] :=
  C1_render_has_no_known_placeholder _ _ _ (by decide) (by decide) (by decide)

/-- C2 (as stated, refuted). (a) The template `{{a{{b}}}}` contains the
placeholder of `a{{b}}`, which is no column of the record `[b = z]`, and the
rendered text `{{az}}` does not contain it. (b) The template `{{x}}}` contains
the placeholder of `x`, which is no column of the record `[x} = v]`, and the
rendered text `v` does not contain it. -/
theorem C2_counterexample :
    (str "a" ++ placeholder (str "b") ∉ [(str "b", str "z")].map Prod.fst
      ∧ placeholder (str "a" ++ placeholder (str "b"))
          <:+: placeholder (str "a" ++ placeholder (str "b"))
      ∧ ¬ placeholder (str "a" ++ placeholder (str "b"))
          <:+: render (placeholder (str "a" ++ placeholder (str "b"))) [(str "b", str "z")])
    ∧ (str "x" ∉ [(str "x" ++ [125], str "v")].map Prod.fst
      ∧ placeholder (str "x") <:+: placeholder (str "x") ++ [125]
      ∧ ¬ placeholder (str "x")
          <:+: render (placeholder (str "x") ++ [125]) [(str "x" ++ [125], str "v")]) := by
  refine ⟨⟨by decide, List.infix_refl _, by decide⟩, ⟨by decide, ⟨[], [125], rfl⟩, by decide⟩⟩

/-- C2 (amended). For every template, every record whose column names are
brace-free and every brace-free name `c` that is not a column of the record:
if `{{c}}` occurs in the template, it occurs in the rendered text. -/
theorem C2_absent_placeholder_preserved (template : Str) (record : List (Str × Str)) (c : Str)
    (hc : BraceFree c) (hrec : ∀ cv ∈ record, BraceFree cv.1)
    (habsent : c ∉ record.map Prod.fst) (hocc : placeholder c <:+: template) :
    placeholder c <:+: render template record :=
  render_preserves c hc record template hrec habsent hocc

/-- Witness for C2 (amended): `{{Zip}}` survives in `Dear {{Name}} {{Zip}}`
rendered with the record `[Name = Ada]`. -/
theorem C2_absent_placeholder_preserved_witness :
    placeholder (str "Zip")
      <:+: render (str "Dear " ++ placeholder (str "Name") ++ str " " ++ placeholder (str "Zip"))
            [(str "Name", str "Ada")] :=
  C2_absent_placeholder_preserved _ _ _ (by decide) (by decide) (by decide)
    ⟨str "Dear " ++ placeholder (str "Name") ++ str " ", [], by simp⟩

/-- C3. For a well-formed template and a record with pairwise distinct
brace-free column names and brace-free values, the sequential column-by-column
replacement equals the reference rendering, which replaces each token whose
name is a column by that column's value and leaves every other piece
unchanged; and the template of Scenario A with the record
`[Name = Ada, ID = 7]` renders to `Dear Ada,\nYour ID is 7.`. -/
theorem C3_render_eq_reference (segs : List Seg) (record : List (Str × Str))
    (hwf : WellFormed segs) (hrec : ∀ cv ∈ record, BraceFree cv.1 ∧ BraceFree cv.2)
    (_hdistinct : (record.map Prod.fst).Nodup) :
    render (flatten segs) record = reference segs record
    ∧ render (str "Dear " ++ placeholder (str "Name") ++ str ",\nYour ID is "
          ++ placeholder (str "ID") ++ str ".")
        [(str "Name", str "Ada"), (str "ID", str "7")] = str "Dear Ada,\nYour ID is 7." :=
  ⟨render_flatten record segs hwf hrec, by decide⟩

/-- Witness for C3: Scenario A, through the reference rendering. -/
theorem C3_render_eq_reference_witness :
    render
        (flatten [.lit (str "Dear "), .tok (str "Name"), .lit (str ",\nYour ID is "),
          .tok (str "ID"), .lit (str ".")])
        [(str "Name", str "Ada"), (str "ID", str "7")]
      = reference
          [.lit (str "Dear "), .tok (str "Name"), .lit (str ",\nYour ID is "),
            .tok (str "ID"), .lit (str ".")]
          [(str "Name", str "Ada"), (str "ID", str "7")]
    ∧ reference
          [.lit (str "Dear "), .tok (str "Name"), .lit (str ",\nYour ID is "),
            .tok (str "ID"), .lit (str ".")]
          [(str "Name", str "Ada"), (str "ID", str "7")] = str "Dear Ada,\nYour ID is 7." :=
  ⟨(C3_render_eq_reference _ _ (by decide) (by decide) (by decide)).1, by decide⟩

/-! ## Claims on the output path -/

/-- The variable `name` of the loop as a fold of its own. -/
theorem substLoop_snd (record : List (Str × Str)) : ∀ (template name : Str),
    (record.foldl
      (fun (acc : Str × Str) (cv : Str × Str) =>
        (ReplaceAll acc.1 (placeholder cv.1) cv.2, if cv.1 = str "Name" then cv.2 else acc.2))
      (template, name)).2
    = record.foldl (fun name cv => if cv.1 = str "Name" then cv.2 else name) name := by
  induction record with
  | nil => intro _ _; rfl
  | cons cv rest ih => intro template name; simp only [List.foldl_cons]; exact ih _ _

/-- The name found by the loop does not depend on the template. -/
theorem substLoop_name (template : Str) (record : List (Str × Str)) :
    (substLoop template record).2 = nameOf record := by
  rw [substLoop, nameOf, substLoop, substLoop_snd, substLoop_snd]

theorem nameFold_keep (v : Str) : ∀ (record : List (Str × Str)),
    (∀ w, (str "Name", w) ∈ record → w = v) →
    record.foldl (fun name cv => if cv.1 = str "Name" then cv.2 else name) v = v
  | [], _ => rfl
  | (c, w) :: record, h => by
    have ih := nameFold_keep v record (fun w hw => h w (List.mem_cons_of_mem _ hw))
    by_cases hc : c = str "Name"
    · have hw : w = v := h w (by simp [hc])
      simpa [List.foldl_cons, hc, hw] using ih
    · simpa [List.foldl_cons, hc] using ih

theorem nameFold_absent : ∀ (record : List (Str × Str)) (name : Str),
    (∀ cv ∈ record, cv.1 ≠ str "Name") →
    record.foldl (fun name cv => if cv.1 = str "Name" then cv.2 else name) name = name
  | [], _, _ => rfl
  | (c, w) :: record, name, h => by
    have hc : c ≠ str "Name" := h (c, w) (List.mem_cons_self _ _)
    simpa [List.foldl_cons, hc] using
      nameFold_absent record name (fun cv hcv => h cv (List.mem_cons_of_mem _ hcv))

theorem nameFold_found (v : Str) : ∀ (record : List (Str × Str)) (name : Str),
    (str "Name", v) ∈ record → (∀ w, (str "Name", w) ∈ record → w = v) →
    record.foldl (fun name cv => if cv.1 = str "Name" then cv.2 else name) name = v
  | [], _, hmem, _ => by simp at hmem
  | (c, w) :: record, name, hmem, h => by
    have hrest : ∀ w, (str "Name", w) ∈ record → w = v :=
      fun w hw => h w (List.mem_cons_of_mem _ hw)
    by_cases hc : c = str "Name"
    · have hw : w = v := h w (by simp [hc])
      simpa [List.foldl_cons, hc, hw] using nameFold_keep v record hrest
    · have hmem2 : (str "Name", v) ∈ record := by
        rcases List.mem_cons.mp hmem with h1 | h1
        · exact absurd (congrArg Prod.fst h1).symm hc
        · exact h1
      simpa [List.foldl_cons, hc] using nameFold_found v record name hmem2 hrest

/-- Replacing `" "` by `"_"` acts byte by byte. -/
theorem ReplaceAll_space (s : Str) :
    ReplaceAll s (str " ") (str "_") = s.map (fun b => if b = 32 then 95 else b) := by
  have h : ∀ s : Str, replaceFrom [32] [95] 0 s = s.map (fun b => if b = 32 then 95 else b) := by
    intro s
    induction s with
    | nil => rfl
    | cons c cs ih =>
      by_cases hc : c = 32
      · subst hc
        simp [replaceFrom, ih]
      · have hc2 : ¬ 32 = c := fun e => hc e.symm
        simp [replaceFrom, ih, hc, hc2]
  exact h s

/-- C4. The path a task writes to is `filepath.Join` of the output directory
and the file name `resume_<n>.txt`, where `n` is the Name value lowercased
with every space replaced by an underscore; the Name value is empty when the
record has no column `Name` and is the value of the column `Name` when the
record has one; Name `""` gives `resume_.txt` and Name `Bob Lee` gives
`resume_bob_lee.txt`. -/
theorem C4_output_path (unicodeLower : Str → Str) (outputFolder : Str)
    (record : List (Str × Str)) :
    outputFile unicodeLower outputFolder record
      = filepathJoin [outputFolder,
          str "resume_"
            ++ (ToLower unicodeLower (nameOf record)).map (fun b => if b = 32 then 95 else b)
            ++ str ".txt"]
    ∧ ((∀ cv ∈ record, cv.1 ≠ str "Name") → nameOf record = [])
    ∧ (∀ v, (str "Name", v) ∈ record → (∀ w, (str "Name", w) ∈ record → w = v) →
        nameOf record = v)
    ∧ outputFile unicodeLower (str "out") [(str "Name", str ""), (str "ID", str "3")]
        = str "out/resume_.txt"
    ∧ outputFile unicodeLower (str "out") [(str "Name", str "Bob Lee"), (str "ID", str "3")]
        = str "out/resume_bob_lee.txt" := by
  refine ⟨?_, ?_, ?_, ?_, ?_⟩
  · rw [outputFile, safeName, ReplaceAll_space]
  · intro h
    rw [nameOf, substLoop, substLoop_snd]
    exact nameFold_absent record [] h
  · intro v hv huniq
    rw [nameOf, substLoop, substLoop_snd]
    exact nameFold_found v record [] hv huniq
  · rfl
  · rfl

/-- Witness for C4: the record `[ID = 3, Name = Bob Lee]` and the output
directory `out`. -/
theorem C4_output_path_witness :
    outputFile id (str "out") [(str "ID", str "3"), (str "Name", str "Bob Lee")]
        = filepathJoin [str "out", str "resume_bob_lee.txt"]
    ∧ nameOf [(str "ID", str "3"), (str "Name", str "Bob Lee")] = str "Bob Lee" :=
  ⟨(C4_output_path id (str "out") [(str "ID", str "3"), (str "Name", str "Bob Lee")]).1.trans
      (by decide),
    (C4_output_path id (str "out") [(str "ID", str "3"), (str "Name", str "Bob Lee")]).2.2.1
      (str "Bob Lee") (by decide)
      (fun w hw => by
        rcases List.mem_cons.mp hw with h | h
        · exact absurd (show str "Name" = str "ID" from congrArg Prod.fst h) (by decide)
        · rcases List.mem_cons.mp h with h | h
          · exact congrArg Prod.snd h
          · exact absurd h (List.not_mem_nil _))⟩

/-! ## Invariants of the scheduler -/

theorem countP_set (p : Task → Bool) : ∀ (l : List Task) (i : Nat) (t x : Task), l[i]? = some t →
    (l.set i x).countP p + (if p t then 1 else 0) = l.countP p + (if p x then 1 else 0)
  | [], _, _, _, h => by simp at h
  | a :: l, 0, t, x, h => by
    simp at h
    subst h
    simp only [List.set_cons_zero, List.countP_cons]
    omega
  | a :: l, i + 1, t, x, h => by
    have ih := countP_set p l i t x (by simpa using h)
    simp only [List.set_cons_succ, List.countP_cons]
    omega

/-- Every enabled step is a step of the producer or a step of one task. -/
theorem step_cases (env : Env) (outputFolder : Str) (e : Event) (s s' : State)
    (hs : step env outputFolder e s = some s') :
    (e = .producer ∧ producerStep s = some s')
    ∨ ∃ i t t', TaskStep env outputFolder s s' i t t' := by
  cases e with
  | producer => exact Or.inl ⟨rfl, hs⟩
  | create i ok =>
    right
    simp only [step] at hs
    split at hs
    · rename_i t ht
      split at hs
      · rename_i hph
        split at hs
        · cases hs
          exact ⟨i, t, { t with phase := .opened }, ht, rfl, rfl, rfl, rfl, rfl, rfl, Or.inl rfl,
            Or.inl ⟨hph, rfl, rfl, rfl, rfl, rfl⟩⟩
        · cases hs
          exact ⟨i, t, { t with phase := .exiting, err := true }, ht, rfl, rfl, rfl, rfl, rfl, rfl,
            Or.inr (Or.inl rfl), Or.inr (Or.inl ⟨hph, rfl, rfl, rfl, rfl, rfl⟩)⟩
      · cases hs
    · cases hs
  | write i failAt =>
    right
    simp only [step] at hs
    split at hs
    · rename_i t ht
      split at hs
      · rename_i hph
        split at hs
        · cases hs
          exact ⟨i, t, { t with phase := .exiting }, ht, rfl, rfl, rfl, rfl, rfl, rfl, Or.inl rfl,
            Or.inr (Or.inr (Or.inl ⟨hph, rfl, rfl, rfl, rfl, rfl⟩))⟩
        · rename_i n
          cases hs
          exact ⟨i, t, { t with phase := .exiting, err := true }, ht, rfl, rfl, rfl, rfl, rfl, rfl,
            Or.inr (Or.inr rfl), Or.inr (Or.inr (Or.inr (Or.inl ⟨hph, rfl, rfl, ⟨n, rfl⟩, rfl, rfl⟩)))⟩
      · cases hs
    · cases hs
  | release i =>
    right
    simp only [step] at hs
    split at hs
    · rename_i t ht
      split at hs
      · rename_i hph
        cases hs
        exact ⟨i, t, { t with phase := .released }, ht, rfl, rfl, rfl, rfl, rfl, rfl, Or.inl rfl,
          Or.inr (Or.inr (Or.inr (Or.inr (Or.inl
            ⟨hph.1, rfl, rfl, rfl, Nat.sub_add_cancel hph.2, rfl⟩))))⟩
      · cases hs
    · cases hs
  | done i =>
    right
    simp only [step] at hs
    split at hs
    · rename_i t ht
      split at hs
      · rename_i hph
        cases hs
        exact ⟨i, t, { t with phase := .done }, ht, rfl, rfl, rfl, rfl, rfl, rfl, Or.inl rfl,
          Or.inr (Or.inr (Or.inr (Or.inr (Or.inr
            ⟨hph.1, rfl, rfl, rfl, rfl, Nat.sub_add_cancel hph.2⟩))))⟩
      · cases hs
    · cases hs

theorem mailMerge_inv (env : Env) (templateFile : Str) : SchedInv (mailMerge env templateFile) := by
  unfold mailMerge
  split
  · constructor <;> simp [failedState, running, unfinished, heldByProducer, addedByProducer]
  · split
    · constructor <;> simp [failedState, running, unfinished, heldByProducer, addedByProducer]
    · split
      · constructor <;> simp [failedState, running, unfinished, heldByProducer, addedByProducer]
      · constructor <;> simp [running, unfinished, heldByProducer, addedByProducer]

theorem producerStep_inv (s s' : State) (h : SchedInv s) (hs : producerStep s = some s') :
    SchedInv s' := by
  obtain ⟨h1, h2, h3, h4, h5, h6⟩ := h
  unfold producerStep at hs
  split at hs
  · split at hs
    · cases hs
      constructor <;> simp_all [running, unfinished, heldByProducer, addedByProducer]
    · cases hs
      constructor <;> simp_all [running, unfinished, heldByProducer, addedByProducer]
    · cases hs
      constructor <;> simp_all [running, unfinished, heldByProducer, addedByProducer]
  · split at hs
    · cases hs
      constructor <;> simp_all [running, unfinished, heldByProducer, addedByProducer, semaphoreCap]
      omega
    · cases hs
  · cases hs
    constructor <;>
      simp_all [running, unfinished, heldByProducer, addedByProducer, List.countP_cons,
        Task.isRunning, Task.isUnfinished]
  · split at hs
    · cases hs
      constructor <;> simp_all [running, unfinished, heldByProducer, addedByProducer]
    · cases hs
  · cases hs
  · cases hs

theorem taskStep_inv (env : Env) (outputFolder : Str) (s s' : State) (i : Nat) (t t' : Task)
    (h : SchedInv s) (ht : TaskStep env outputFolder s s' i t t') : SchedInv s' := by
  obtain ⟨h1, h2, h3, h4, h5, h6⟩ := h
  obtain ⟨hget, htasks, _, hpc, hrows, _, _, _, hmove⟩ := ht
  have hr := countP_set Task.isRunning s.tasks i t t' hget
  have hu := countP_set Task.isUnfinished s.tasks i t t' hget
  have hpos : t.isUnfinished = true → 0 < unfinished s := fun hp =>
    List.countP_pos_iff.mpr ⟨t, List.getElem?_mem hget, hp⟩
  have hne : s.tasks ≠ [] := by intro hnil; simp [hnil] at hget
  simp only [running, unfinished] at h1 h3 hpos
  have key : s'.semaphore = running s' + heldByProducer s'.pc ∧ s'.semaphore ≤ semaphoreCap
      ∧ s'.wg = unfinished s' + addedByProducer s'.pc ∧ t.isUnfinished = true := by
    simp only [running, unfinished, htasks, hpc]
    rcases hmove with ⟨p, p', _, _, hsem, hwg⟩ | ⟨p, p', _, _, hsem, hwg⟩ | ⟨p, p', _, _, hsem, hwg⟩
      | ⟨p, p', _, _, hsem, hwg⟩ | ⟨p, p', _, _, hsem, hwg⟩ | ⟨p, p', _, _, hsem, hwg⟩ <;>
    · simp only [Task.isRunning, Task.isUnfinished, p, p'] at hr hu ⊢
      simp at hr hu ⊢
      omega
  refine ⟨key.1, key.2.1, key.2.2.1, ?_, ?_, ?_⟩
  · intro hdone
    have := h4 (hpc ▸ hdone)
    have := hpos key.2.2.2
    omega
  · rw [hpc, hrows]; exact h5
  · intro hf
    exact absurd (h6 (hpc ▸ hf)) hne

theorem step_inv (env : Env) (outputFolder : Str) (e : Event) (s s' : State) (h : SchedInv s)
    (hs : step env outputFolder e s = some s') : SchedInv s' := by
  rcases step_cases env outputFolder e s s' hs with ⟨_, hp⟩ | ⟨i, t, t', ht⟩
  · exact producerStep_inv s s' h hp
  · exact taskStep_inv env outputFolder s s' i t t' h ht

theorem exec_inv (env : Env) (outputFolder : Str) : ∀ (schedule : List Event) (s : State),
    SchedInv s → SchedInv (exec env outputFolder schedule s)
  | [], _, h => h
  | e :: es, s, h => by
    show SchedInv (exec env outputFolder es ((step env outputFolder e s).getD s))
    apply exec_inv env outputFolder es
    cases hs : step env outputFolder e s with
    | none => exact h
    | some s' => exact step_inv env outputFolder e s s' h hs

/-- A general invariant lifts from the steps to the schedules. -/
theorem exec_induction (env : Env) (outputFolder : Str) (P : State → Prop)
    (hstep : ∀ e s s', P s → step env outputFolder e s = some s' → P s') :
    ∀ (schedule : List Event) (s : State), P s → P (exec env outputFolder schedule s)
  | [], _, h => h
  | e :: es, s, h => by
    show P (exec env outputFolder es ((step env outputFolder e s).getD s))
    apply exec_induction env outputFolder P hstep es
    cases hs : step env outputFolder e s with
    | none => exact h
    | some s' => exact hstep e s s' h hs

theorem exec_append (env : Env) (outputFolder : Str) (es es' : List Event) (s : State) :
    exec env outputFolder (es ++ es') s = exec env outputFolder es' (exec env outputFolder es s) := by
  simp [exec, List.foldl_append]

theorem mailMerge_completeLogged (env : Env) (templateFile : Str) :
    CompleteLogged (mailMerge env templateFile) := by
  intro h
  exfalso
  unfold mailMerge at h
  split at h
  · simp [failedState] at h
  · split at h
    · simp [failedState] at h
    · split at h
      · simp [failedState, scanErrors] at h
      · simp [scanErrors] at h

theorem step_completeLogged (env : Env) (outputFolder : Str) (e : Event) (s s' : State)
    (h : CompleteLogged s) (hs : step env outputFolder e s = some s') : CompleteLogged s' := by
  rcases step_cases env outputFolder e s s' hs with ⟨_, hp⟩ | ⟨i, t, t', ht⟩
  · intro hlog
    unfold producerStep at hp
    split at hp
    · rename_i hpc
      have hnot : Effect.log "Mail merge complete" ∉ s.trace := fun hm => by
        have := h hm; rw [hpc] at this; cases this
      split at hp <;> cases hp <;> simp_all
    · rename_i hpc
      have hnot : Effect.log "Mail merge complete" ∉ s.trace := fun hm => by
        have := h hm; rw [hpc] at this; cases this
      split at hp
      · cases hp; simp_all
      · cases hp
    · rename_i hpc
      have hnot : Effect.log "Mail merge complete" ∉ s.trace := fun hm => by
        have := h hm; rw [hpc] at this; cases this
      cases hp; simp_all
    · split at hp
      · cases hp; rfl
      · cases hp
    · cases hp
    · cases hp
  · intro hlog
    rw [ht.pc]
    apply h
    rcases ht.trace with htr | htr | htr <;> rw [htr] at hlog
    · exact hlog
    · simpa using hlog
    · simpa using hlog

/-! ## Invariants of the files -/

theorem count_one_unique (p : Str) : ∀ (l : List Str) (i j : Nat),
    l.count p = 1 → l[i]? = some p → l[j]? = some p → i = j
  | [], _, _, h, _, _ => by simp at h
  | a :: l, i, j, h, hi, hj => by
    have hpos : ∀ k, l[k]? = some p → 0 < l.count p := fun k hk =>
      List.count_pos_iff.mpr (List.getElem?_mem hk)
    rw [List.count_cons] at h
    cases i with
    | zero =>
      cases j with
      | zero => rfl
      | succ j =>
        simp at hi hj
        have := hpos j hj
        simp [hi] at h
        omega
    | succ i =>
      cases j with
      | zero =>
        simp at hi hj
        have := hpos i hi
        simp [hj] at h
        omega
      | succ j =>
        simp at hi hj
        have := hpos i hi
        by_cases ha : a = p
        · simp [ha] at h; omega
        · simp [ha] at h
          rw [count_one_unique p l i j h hi hj]

theorem count_eq_one_of_nodup (p : Str) : ∀ (l : List Str), l.Nodup → p ∈ l → l.count p = 1
  | [], _, h => by simp at h
  | a :: l, hnd, hmem => by
    rw [List.count_cons]
    have hnd2 := List.nodup_cons.mp hnd
    by_cases ha : a = p
    · subst ha
      simp [List.count_eq_zero_of_not_mem hnd2.1]
    · have hm : p ∈ l := by
        rcases List.mem_cons.mp hmem with h | h
        · exact absurd h.symm ha
        · exact h
      simp [ha, count_eq_one_of_nodup p l hnd2.2 hm]

theorem taskFile_congr (env : Env) (outputFolder : Str) (s s' : State) (t t' : Task)
    (hc : s'.columns = s.columns) (hv : t'.vals = t.vals) :
    taskFile env outputFolder s' t' = taskFile env outputFolder s t := by
  simp [taskFile, taskPath, taskRecord, hc, hv]

theorem taskContent_congr (s s' : State) (t t' : Task) (hc : s'.columns = s.columns)
    (hT : s'.template = s.template) (hv : t'.vals = t.vals) :
    taskContent s' t' = taskContent s t := by
  simp [taskContent, taskRecord, hc, hT, hv]

theorem taskFiles_taskStep (env : Env) (outputFolder : Str) (s s' : State) (i : Nat) (t t' : Task)
    (ht : TaskStep env outputFolder s s' i t t') :
    taskFiles env outputFolder s' = taskFiles env outputFolder s := by
  have hfun : taskFile env outputFolder s' = taskFile env outputFolder s := by
    funext x; exact taskFile_congr env outputFolder s s' x x ht.columns rfl
  have hlt : i < s.tasks.length := (List.getElem?_eq_some.mp ht.get).1
  have hti : s.tasks[i] = t := (List.getElem?_eq_some.mp ht.get).2
  simp only [taskFiles, hfun, ht.tasks, List.map_set]
  apply List.ext_getElem?
  intro j
  by_cases hj : i = j
  · subst hj
    simp [List.getElem?_set_self, hlt, hti]
    exact taskFile_congr env outputFolder s s t t' rfl ht.vals
  · simp [List.getElem?_set_ne hj]

theorem mem_taskFiles (env : Env) (outputFolder : Str) (s : State) (i : Nat) (t : Task)
    (h : s.tasks[i]? = some t) :
    (taskFiles env outputFolder s)[i]? = some (taskFile env outputFolder s t) := by
  simp [taskFiles, h]

/-- What a step of the producer does to the tasks and files. -/
theorem producerStep_tasks (s s' : State) (hp : producerStep s = some s') :
    s'.files = s.files ∧ s'.template = s.template ∧ s'.columns = s.columns
    ∧ (s'.tasks = s.tasks
      ∨ ∃ vals, s.pc = .spawn vals ∧ s'.pc = .loop ∧ s'.rows = s.rows
          ∧ s'.tasks = s.tasks ++ [{ vals := vals, phase := .created, err := false }]) := by
  unfold producerStep at hp
  split at hp
  · split at hp <;> cases hp <;> simp
  · split at hp
    · cases hp; simp
    · cases hp
  · rename_i vals hpc
    cases hp
    exact ⟨rfl, rfl, rfl, Or.inr ⟨vals, hpc, rfl, rfl, rfl⟩⟩
  · split at hp
    · cases hp; simp
    · cases hp
  · cases hp
  · cases hp

theorem mailMerge_tasks (env : Env) (templateFile : Str) :
    (mailMerge env templateFile).tasks = [] ∧ (mailMerge env templateFile).files = env.files := by
  unfold mailMerge
  split
  · exact ⟨rfl, rfl⟩
  · split
    · exact ⟨rfl, rfl⟩
    · split <;> exact ⟨rfl, rfl⟩

theorem mailMerge_fileInv (env : Env) (templateFile outputFolder : Str) :
    FileInv env outputFolder (mailMerge env templateFile) := by
  intro i t h
  simp [(mailMerge_tasks env templateFile).1] at h

theorem producerStep_fileInv (env : Env) (outputFolder : Str) (s s' : State)
    (h : FileInv env outputFolder s) (hp : producerStep s = some s') :
    FileInv env outputFolder s' := by
  obtain ⟨hfiles, hT, hC, htasks⟩ := producerStep_tasks s s' hp
  have hpath : ∀ t, taskFile env outputFolder s' t = taskFile env outputFolder s t :=
    fun t => taskFile_congr env outputFolder s s' t t hC rfl
  have hcont : ∀ t, taskContent s' t = taskContent s t :=
    fun t => taskContent_congr s s' t t hC hT rfl
  have hfun : taskFile env outputFolder s' = taskFile env outputFolder s := funext hpath
  intro i t hget
  rw [hpath, hcont, hfiles]
  rcases htasks with htasks | ⟨vals, _, _, _, htasks⟩
  · have hpaths : taskFiles env outputFolder s' = taskFiles env outputFolder s := by
      simp [taskFiles, hfun, htasks]
    rw [hpaths]
    exact h i t (htasks ▸ hget)
  · rw [htasks] at hget
    by_cases hi : i < s.tasks.length
    · rw [List.getElem?_append_left hi] at hget
      obtain ⟨hA, hBC⟩ := h i t hget
      refine ⟨hA, fun hcount => hBC ?_⟩
      have hmem : 0 < (taskFiles env outputFolder s).count (taskFile env outputFolder s t) :=
        List.count_pos_iff.mpr (List.getElem?_mem (mem_taskFiles env outputFolder s i t hget))
      simp only [taskFiles, hfun, htasks, List.map_append, List.count_append] at hcount
      simp only [taskFiles] at hmem ⊢
      omega
    · rw [List.getElem?_append_right (by omega)] at hget
      have hlen : i - s.tasks.length = 0 := by
        by_contra hne
        rw [List.getElem?_eq_none (by simp; omega)] at hget
        cases hget
      rw [hlen] at hget
      simp at hget
      subst hget
      simp

theorem taskStep_fileInv (env : Env) (outputFolder : Str) (s s' : State) (i : Nat) (t t' : Task)
    (h : FileInv env outputFolder s) (ht : TaskStep env outputFolder s s' i t t') :
    FileInv env outputFolder s' := by
  have hpaths := taskFiles_taskStep env outputFolder s s' i t t' ht
  have hpath : ∀ u, taskFile env outputFolder s' u = taskFile env outputFolder s u :=
    fun u => taskFile_congr env outputFolder s s' u u ht.columns rfl
  have hcont : ∀ u, taskContent s' u = taskContent s u :=
    fun u => taskContent_congr s s' u u ht.columns ht.template rfl
  have hp' : taskFile env outputFolder s t' = taskFile env outputFolder s t :=
    taskFile_congr env outputFolder s s t t' rfl ht.vals
  have hc' : taskContent s t' = taskContent s t := taskContent_congr s s t t' rfl rfl ht.vals
  have hframe : ∀ p, p ≠ taskFile env outputFolder s t → s'.files p = s.files p := by
    intro p hp
    rcases ht.move with ⟨_, _, _, hf, _⟩ | ⟨_, _, _, hf, _⟩ | ⟨_, _, _, hf, _⟩
      | ⟨_, _, _, ⟨n, hf⟩, _⟩ | ⟨_, _, _, hf, _⟩ | ⟨_, _, _, hf, _⟩ <;>
      simp [hf, Function.update_noteq hp]
  have hlt : i < s.tasks.length := (List.getElem?_eq_some.mp ht.get).1
  obtain ⟨hA, hBC⟩ := h i t ht.get
  intro j u hget
  rw [ht.tasks] at hget
  rw [hpath, hcont, hpaths]
  by_cases hj : j = i
  · subst hj
    rw [List.getElem?_set_self hlt] at hget
    cases hget
    rw [hp', hc']
    rcases ht.move with ⟨p, p', e, hf, _⟩ | ⟨p, p', e, hf, _⟩ | ⟨p, p', e, hf, _⟩
      | ⟨p, p', e, ⟨n, hf⟩, _⟩ | ⟨p, p', e, hf, _⟩ | ⟨p, p', e, hf, _⟩
    · refine ⟨fun _ => e ▸ hA (Or.inl p), fun _ => ⟨fun _ => ?_, fun _ hno => absurd p' hno⟩⟩
      simp [hf]
    · refine ⟨fun hph => ?_, fun _ => ⟨fun hph => ?_, fun _ _ he => ?_⟩⟩
      · rw [p'] at hph; simp at hph
      · rw [p'] at hph; simp at hph
      · rw [e] at he; simp at he
    · refine ⟨fun hph => ?_, fun hcount => ⟨fun hph => ?_, fun _ _ _ => ?_⟩⟩
      · rw [p'] at hph; simp at hph
      · rw [p'] at hph; simp at hph
      · rw [hf, (hBC hcount).1 p]
        simp [writeAt]
    · refine ⟨fun hph => ?_, fun _ => ⟨fun hph => ?_, fun _ _ he => ?_⟩⟩
      · rw [p'] at hph; simp at hph
      · rw [p'] at hph; simp at hph
      · rw [e] at he; simp at he
    · refine ⟨fun hph => ?_, fun hcount => ⟨fun hph => ?_, fun _ _ he => ?_⟩⟩
      · rw [p'] at hph; simp at hph
      · rw [p'] at hph; simp at hph
      · rw [hf]
        exact (hBC hcount).2 (by rw [p]; simp) (by rw [p]; simp) (e ▸ he)
    · refine ⟨fun hph => ?_, fun hcount => ⟨fun hph => ?_, fun _ _ he => ?_⟩⟩
      · rw [p'] at hph; simp at hph
      · rw [p'] at hph; simp at hph
      · rw [hf]
        exact (hBC hcount).2 (by rw [p]; simp) (by rw [p]; simp) (e ▸ he)
  · rw [List.getElem?_set_ne (fun e => hj e.symm)] at hget
    obtain ⟨hA2, hBC2⟩ := h j u hget
    refine ⟨hA2, fun hcount => ?_⟩
    have hne : taskFile env outputFolder s u ≠ taskFile env outputFolder s t := by
      intro heq
      exact hj (count_one_unique _ _ j i hcount (mem_taskFiles env outputFolder s j u hget)
        (heq ▸ mem_taskFiles env outputFolder s i t ht.get))
    rw [hframe _ hne]
    exact hBC2 hcount

theorem step_fileInv (env : Env) (outputFolder : Str) (e : Event) (s s' : State)
    (h : FileInv env outputFolder s) (hs : step env outputFolder e s = some s') :
    FileInv env outputFolder s' := by
  rcases step_cases env outputFolder e s s' hs with ⟨_, hp⟩ | ⟨i, t, t', ht⟩
  · exact producerStep_fileInv env outputFolder s s' h hp
  · exact taskStep_fileInv env outputFolder s s' i t t' h ht

/-! ## The rows dispatched and the files left alone -/

theorem mailMerge_setupInv (env : Env) (templateFile : Str) :
    SetupInv (mailMerge env templateFile) (mailMerge env templateFile) := by
  refine ⟨rfl, rfl, ?_⟩
  unfold mailMerge
  split
  · simp [failedState, inHand]
  · split
    · simp [failedState, inHand]
    · split <;> simp [failedState, inHand]

theorem step_setupInv (env : Env) (outputFolder : Str) (s0 : State) (e : Event) (s s' : State)
    (h : SetupInv s0 s) (hs : step env outputFolder e s = some s') : SetupInv s0 s' := by
  obtain ⟨h1, h2, h3⟩ := h
  rcases step_cases env outputFolder e s s' hs with ⟨_, hp⟩ | ⟨i, t, t', ht⟩
  · unfold producerStep at hp
    split at hp
    · rename_i hpc
      split at hp <;> cases hp <;> constructor <;> simp_all [inHand]
    · rename_i hpc
      split at hp
      · cases hp; constructor <;> simp_all [inHand]
      · cases hp
    · rename_i hpc
      cases hp; constructor <;> simp_all [inHand]
    · rename_i hpc
      split at hp
      · cases hp; constructor <;> simp_all [inHand]
      · cases hp
    · cases hp
    · cases hp
  · refine ⟨ht.template.trans h1, ht.columns.trans h2, ?_⟩
    have hlt : i < s.tasks.length := (List.getElem?_eq_some.mp ht.get).1
    have hti : s.tasks[i] = t := (List.getElem?_eq_some.mp ht.get).2
    have hmap : s'.tasks.map Task.vals = s.tasks.map Task.vals := by
      rw [ht.tasks, List.map_set]
      apply List.ext_getElem?
      intro j
      by_cases hj : i = j
      · subst hj
        simp [List.getElem?_set_self, hlt, hti, ht.vals]
      · simp [List.getElem?_set_ne hj]
    rw [hmap, ht.pc, ht.rows]
    exact h3

theorem mailMerge_frameInv (env : Env) (templateFile outputFolder : Str) :
    FrameInv env outputFolder (mailMerge env templateFile) := by
  intro p _
  rw [(mailMerge_tasks env templateFile).2]

theorem step_frameInv (env : Env) (outputFolder : Str) (e : Event) (s s' : State)
    (h : FrameInv env outputFolder s) (hs : step env outputFolder e s = some s') :
    FrameInv env outputFolder s' := by
  rcases step_cases env outputFolder e s s' hs with ⟨_, hp⟩ | ⟨i, t, t', ht⟩
  · obtain ⟨hfiles, _, hC, htasks⟩ := producerStep_tasks s s' hp
    have hfun : taskFile env outputFolder s' = taskFile env outputFolder s :=
      funext (fun t => taskFile_congr env outputFolder s s' t t hC rfl)
    intro p hp
    rw [hfiles]
    apply h
    intro hmem
    apply hp
    rcases htasks with htasks | ⟨vals, _, _, _, htasks⟩
    · simpa [taskFiles, hfun, htasks] using hmem
    · simp only [taskFiles, hfun, htasks, List.map_append, List.mem_append]
      exact Or.inl hmem
  · intro p hp
    rw [taskFiles_taskStep env outputFolder s s' i t t' ht] at hp
    have hne : p ≠ taskFile env outputFolder s t := by
      intro heq
      exact hp (heq ▸ List.getElem?_mem (mem_taskFiles env outputFolder s i t ht.get))
    have hsame : s'.files p = s.files p := by
      rcases ht.move with ⟨_, _, _, hf, _⟩ | ⟨_, _, _, hf, _⟩ | ⟨_, _, _, hf, _⟩
        | ⟨_, _, _, ⟨n, hf⟩, _⟩ | ⟨_, _, _, hf, _⟩ | ⟨_, _, _, hf, _⟩ <;>
        simp [hf, Function.update_noteq hne]
    rw [hsame]
    exact h p hp

/-! ## Progress and termination -/

theorem sum_set (f : Task → Nat) : ∀ (l : List Task) (i : Nat) (t x : Task), l[i]? = some t →
    ((l.set i x).map f).sum + f t = (l.map f).sum + f x
  | [], _, _, _, h => by simp at h
  | a :: l, 0, t, x, h => by
    simp at h
    subst h
    simp only [List.set_cons_zero, List.map_cons, List.sum_cons]
    omega
  | a :: l, i + 1, t, x, h => by
    have ih := sum_set f l i t x (by simpa using h)
    simp only [List.set_cons_succ, List.map_cons, List.sum_cons]
    omega

/-- Every step taken brings the run closer to its end. -/
theorem step_stepsLeft (env : Env) (outputFolder : Str) (e : Event) (s s' : State)
    (hs : step env outputFolder e s = some s') : stepsLeft s' < stepsLeft s := by
  rcases step_cases env outputFolder e s s' hs with ⟨_, hp⟩ | ⟨i, t, t', ht⟩
  · unfold producerStep at hp
    split at hp
    · rename_i hpc
      split at hp <;> rename_i hrows <;> cases hp <;>
        simp only [stepsLeft, hpc, hrows, pcWeight, List.length_cons, List.length_nil] <;> omega
    · rename_i hpc
      split at hp
      · cases hp
        simp only [stepsLeft, hpc, pcWeight]
        omega
      · cases hp
    · rename_i hpc
      cases hp
      simp only [stepsLeft, hpc, pcWeight, List.map_append, List.sum_append, List.map_cons,
        List.map_nil, List.sum_cons, List.sum_nil, Task.weight, phaseWeight]
      omega
    · rename_i hpc
      split at hp
      · cases hp
        simp only [stepsLeft, hpc, pcWeight]
        omega
      · cases hp
    · cases hp
    · cases hp
  · have hsum := sum_set Task.weight s.tasks i t t' ht.get
    simp only [stepsLeft, ht.tasks, ht.pc, ht.rows]
    rcases ht.move with ⟨p, p', _⟩ | ⟨p, p', _⟩ | ⟨p, p', _⟩ | ⟨p, p', _⟩ | ⟨p, p', _⟩
      | ⟨p, p', _⟩ <;>
    · have w : t.weight = phaseWeight t.phase := rfl
      have w' : t'.weight = phaseWeight t'.phase := rfl
      rw [p] at w
      rw [p'] at w'
      simp only [phaseWeight] at w w'
      omega

theorem stepsTaken_le (env : Env) (outputFolder : Str) : ∀ (schedule : List Event) (s : State),
    stepsTaken env outputFolder schedule s + stepsLeft (exec env outputFolder schedule s)
      ≤ stepsLeft s
  | [], s => by simp [stepsTaken, exec]
  | e :: es, s => by
    show stepsTaken env outputFolder (e :: es) s
        + stepsLeft (exec env outputFolder es ((step env outputFolder e s).getD s)) ≤ stepsLeft s
    cases hs : step env outputFolder e s with
    | none =>
      simp only [stepsTaken, hs, Option.getD_none]
      exact stepsTaken_le env outputFolder es s
    | some s' =>
      simp only [stepsTaken, hs, Option.getD_some]
      have := stepsTaken_le env outputFolder es s'
      have := step_stepsLeft env outputFolder e s s' hs
      omega

/-- A task that is not over can take a step. -/
theorem task_enabled (env : Env) (outputFolder : Str) (s : State) (h : SchedInv s) (i : Nat)
    (t : Task) (ht : s.tasks[i]? = some t) (hph : t.phase ≠ .done) :
    ∃ e, (step env outputFolder e s).isSome = true := by
  have hmem : t ∈ s.tasks := List.getElem?_mem ht
  cases hp : t.phase with
  | created => exact ⟨.create i true, by simp [step, ht, hp]⟩
  | opened => exact ⟨.write i none, by simp [step, ht, hp]⟩
  | exiting =>
    have hrun : 0 < running s :=
      List.countP_pos_iff.mpr ⟨t, hmem, by simp [Task.isRunning, hp]⟩
    have hsem : 0 < s.semaphore := by have := h.sem_eq; omega
    exact ⟨.release i, by simp [step, ht, hp, hsem]⟩
  | released =>
    have hun : 0 < unfinished s :=
      List.countP_pos_iff.mpr ⟨t, hmem, by simp [Task.isUnfinished, hp]⟩
    have hwg : 0 < s.wg := by have := h.wg_eq; omega
    exact ⟨.done i, by simp [step, ht, hp, hwg]⟩
  | done => exact absurd hp hph

theorem exists_index_of_countP_pos (p : Task → Bool) (l : List Task) (h : 0 < l.countP p) :
    ∃ (i : Nat) (t : Task), l[i]? = some t ∧ p t = true := by
  obtain ⟨t, hmem, hp⟩ := List.countP_pos_iff.mp h
  obtain ⟨i, hi⟩ := List.getElem?_of_mem hmem
  exact ⟨i, t, hi, hp⟩

/-- As long as `mailMerge` has not returned, some goroutine can take a step. -/
theorem progress (env : Env) (outputFolder : Str) (s : State) (h : SchedInv s)
    (hdone : s.pc ≠ .done) (hfailed : s.pc ≠ .failed) :
    ∃ e, (step env outputFolder e s).isSome = true := by
  cases hpc : s.pc with
  | loop =>
    cases hrows : s.rows with
    | nil => exact ⟨.producer, by simp [step, producerStep, hpc, hrows]⟩
    | cons r rows =>
      cases r with
      | none => exact ⟨.producer, by simp [step, producerStep, hpc, hrows]⟩
      | some vals => exact ⟨.producer, by simp [step, producerStep, hpc, hrows]⟩
  | acquire vals =>
    by_cases hsem : s.semaphore < semaphoreCap
    · exact ⟨.producer, by simp [step, producerStep, hpc, hsem]⟩
    · have hrun : 0 < running s := by
        have := h.sem_eq
        simp only [hpc, heldByProducer, semaphoreCap] at this hsem
        omega
      obtain ⟨i, t, ht, hp⟩ := exists_index_of_countP_pos _ _ hrun
      refine task_enabled env outputFolder s h i t ht ?_
      intro hd
      simp [Task.isRunning, hd] at hp
  | spawn vals => exact ⟨.producer, by simp [step, producerStep, hpc]⟩
  | wait =>
    by_cases hwg : s.wg = 0
    · exact ⟨.producer, by simp [step, producerStep, hpc, hwg]⟩
    · have hun : 0 < unfinished s := by
        have := h.wg_eq
        simp only [hpc, addedByProducer] at this
        omega
      obtain ⟨i, t, ht, hp⟩ := exists_index_of_countP_pos _ _ hun
      refine task_enabled env outputFolder s h i t ht ?_
      intro hd
      simp [Task.isUnfinished, hd] at hp
  | done => exact absurd hpc hdone
  | failed => exact absurd hpc hfailed

theorem step_not_failed (env : Env) (outputFolder : Str) (e : Event) (s s' : State)
    (hs : step env outputFolder e s = some s') (hf : s.pc ≠ .failed) : s'.pc ≠ .failed := by
  rcases step_cases env outputFolder e s s' hs with ⟨_, hp⟩ | ⟨i, t, t', ht⟩
  · unfold producerStep at hp
    split at hp
    · split at hp <;> cases hp <;> simp [hf]
    · split at hp
      · cases hp; simp
      · cases hp
    · cases hp; simp
    · split at hp
      · cases hp; simp
      · cases hp
    · cases hp
    · cases hp
  · rw [ht.pc]; exact hf

/-- From every state of a merge that has not failed, some schedule leads to
the return of `mailMerge` through line 682. -/
theorem can_complete (env : Env) (outputFolder : Str) : ∀ (n : Nat) (s : State),
    stepsLeft s ≤ n → SchedInv s → s.pc ≠ .failed →
    ∃ more, (exec env outputFolder more s).pc = .done
  | n, s, hn, h, hf => by
    by_cases hdone : s.pc = .done
    · exact ⟨[], hdone⟩
    · obtain ⟨e, he⟩ := progress env outputFolder s h hdone hf
      obtain ⟨s', hs⟩ := Option.isSome_iff_exists.mp he
      have hlt := step_stepsLeft env outputFolder e s s' hs
      match n, hn with
      | 0, hn => omega
      | n + 1, hn =>
        obtain ⟨more, hmore⟩ := can_complete env outputFolder n s' (by omega)
          (step_inv env outputFolder e s s' h hs) (step_not_failed env outputFolder e s s' hs hf)
        refine ⟨e :: more, ?_⟩
        show (exec env outputFolder more ((step env outputFolder e s).getD s)).pc = .done
        rw [hs]
        exact hmore

/-! ## The state in which `mailMerge` has returned -/

theorem mailMerge_ok (env : Env) (templateFile T : Str) (info : List (Option Str))
    (rows : List (Option (List Str))) (hT : env.readFile templateFile = some T)
    (hinfo : env.tableInfo = some info)
    (hrows : env.query (selectQuery (scannedColumns info)) = some rows) :
    (mailMerge env templateFile).pc = .loop ∧ (mailMerge env templateFile).template = T
    ∧ (mailMerge env templateFile).columns = scannedColumns info
    ∧ (mailMerge env templateFile).rows = rows := by
  simp [mailMerge, hT, hinfo, hrows]

/-- A state of an early return is final: no choice is enabled in it. -/
theorem exec_failed (env : Env) (outputFolder : Str) (s : State) (hpc : s.pc = .failed)
    (htasks : s.tasks = []) : ∀ (schedule : List Event), exec env outputFolder schedule s = s
  | [] => rfl
  | e :: es => by
    have hnone : step env outputFolder e s = none := by
      cases e <;> simp [step, producerStep, hpc, htasks]
    show exec env outputFolder es ((step env outputFolder e s).getD s) = s
    rw [hnone]
    exact exec_failed env outputFolder s hpc htasks es

theorem exec_not_failed (env : Env) (outputFolder : Str) (schedule : List Event) (s : State)
    (h : s.pc ≠ .failed) : (exec env outputFolder schedule s).pc ≠ .failed :=
  exec_induction env outputFolder (fun s => s.pc ≠ .failed)
    (fun e s s' hs hstep => step_not_failed env outputFolder e s s' hstep hs) schedule s h

/-- When `mailMerge` has returned through line 682, every task is over and
the tasks are those of the rows scanned, in their order. -/
theorem done_tasks (s0 s : State) (h : SchedInv s) (hsetup : SetupInv s0 s) (hpc : s.pc = .done) :
    (∀ t ∈ s.tasks, t.phase = .done) ∧ s.tasks.map Task.vals = s0.rows.filterMap id := by
  constructor
  · have hwg := h.complete hpc
    have hun : unfinished s = 0 := by have := h.wg_eq; omega
    intro t ht
    have := (List.countP_eq_zero.mp hun) t ht
    simpa [Task.isUnfinished] using this
  · have hv := hsetup.vals
    rw [h.norows (Or.inr (Or.inl hpc)), hpc] at hv
    simpa [inHand] using hv

theorem completions_eq (s : State) (h : ∀ t ∈ s.tasks, t.phase = .done) :
    completions s = dispatched s := by
  simp only [completions, dispatched]
  rw [List.countP_eq_length]
  intro t ht
  simp [h t ht]

/-- The file of a record whose output file is the output file of no other
record, once `mailMerge` has returned: if the `err` of its task is nil, the
file holds the record's rendering. -/
theorem done_file (env : Env) (outputFolder : Str) (s0 s : State) (h : SchedInv s)
    (hsetup : SetupInv s0 s) (hfile : FileInv env outputFolder s) (hpc : s.pc = .done)
    (i : Nat) (r : List (Str × Str))
    (hr : (recordsOf s0.columns s0.rows)[i]? = some r)
    (huniq : ((recordsOf s0.columns s0.rows).map
        (fun r => env.resolve (outputFile env.unicodeLower outputFolder r))).count
        (env.resolve (outputFile env.unicodeLower outputFolder r)) = 1)
    (herr : (s.tasks[i]?).map Task.err = some false) :
    s.files (env.resolve (outputFile env.unicodeLower outputFolder r))
      = some (render s0.template r) := by
  obtain ⟨hdone, hvals⟩ := done_tasks s0 s h hsetup hpc
  have hrec : recordsOf s0.columns s0.rows = s.tasks.map (taskRecord s) := by
    simp only [recordsOf, ← hvals, List.map_map]
    apply List.map_congr_left
    intro t _
    simp [taskRecord, hsetup.columns]
  have hfiles : (recordsOf s0.columns s0.rows).map
      (fun r => env.resolve (outputFile env.unicodeLower outputFolder r))
      = taskFiles env outputFolder s := by
    rw [hrec, List.map_map]; rfl
  cases ht : s.tasks[i]? with
  | none => simp [ht] at herr
  | some t =>
    have htr : taskRecord s t = r := by
      rw [hrec] at hr
      simpa [ht] using hr
    have herr2 : t.err = false := by simpa [ht] using herr
    have hph := hdone t (List.getElem?_mem ht)
    obtain ⟨_, hBC⟩ := hfile i t ht
    have hpath : taskFile env outputFolder s t
        = env.resolve (outputFile env.unicodeLower outputFolder r) := by
      rw [taskFile, taskPath, htr]
    have hcont : taskContent s t = render s0.template r := by
      rw [taskContent, htr, hsetup.template]
    rw [hfiles, ← hpath] at huniq
    rw [← hpath, ← hcont]
    exact (hBC huniq).2 (by rw [hph]; simp) (by rw [hph]; simp) herr2

/-! ## The scan errors logged -/

/-- C5. In every state the scheduler can reach, for every input, the number of
tasks that have been started and have not yet exited (reached the deferred
receive from the semaphore channel) is at most 50, and so is the number of
elements in the channel. -/
theorem C5_at_most_50_running (env : Env) (templateFile outputFolder : Str)
    (schedule : List Event) :
    running (exec env outputFolder schedule (mailMerge env templateFile)) ≤ 50
    ∧ (exec env outputFolder schedule (mailMerge env templateFile)).semaphore ≤ 50 := by
  have h := exec_inv env outputFolder schedule _ (mailMerge_inv env templateFile)
  have h1 := h.sem_eq
  have h2 := h.sem_le
  simp only [semaphoreCap] at h2
  exact ⟨by omega, h2⟩

/-- C6. Whenever the producer is passing `wg.Wait`, has logged
`Mail merge complete` or has returned through line 682, every task it
dispatched is over: the number of completions equals the number of tasks
dispatched. -/
theorem C6_complete_after_all_tasks (env : Env) (templateFile outputFolder : Str)
    (schedule : List Event)
    (hret :
      ((exec env outputFolder schedule (mailMerge env templateFile)).pc = .wait
        ∧ (step env outputFolder .producer
            (exec env outputFolder schedule (mailMerge env templateFile))).isSome = true)
      ∨ Effect.log "Mail merge complete"
          ∈ (exec env outputFolder schedule (mailMerge env templateFile)).trace
      ∨ (exec env outputFolder schedule (mailMerge env templateFile)).pc = .done) :
    (∀ t ∈ (exec env outputFolder schedule (mailMerge env templateFile)).tasks, t.phase = .done)
    ∧ completions (exec env outputFolder schedule (mailMerge env templateFile))
        = dispatched (exec env outputFolder schedule (mailMerge env templateFile)) := by
  have h := exec_inv env outputFolder schedule _ (mailMerge_inv env templateFile)
  have hlog := exec_induction env outputFolder CompleteLogged
    (step_completeLogged env outputFolder) schedule _ (mailMerge_completeLogged env templateFile)
  generalize exec env outputFolder schedule (mailMerge env templateFile) = s at h hlog hret
  have hall : ∀ t ∈ s.tasks, t.phase = .done := by
    have hun : unfinished s = 0 := by
      rcases hret with ⟨hpc, hstep⟩ | hl | hpc
      · have hwg : s.wg = 0 := by
          by_contra hne
          simp [step, producerStep, hpc, hne] at hstep
        have := h.wg_eq
        omega
      · have := h.complete (hlog hl)
        have := h.wg_eq
        omega
      · have := h.complete hpc
        have := h.wg_eq
        omega
    intro t ht
    have := (List.countP_eq_zero.mp hun) t ht
    simpa [Task.isUnfinished] using this
  exact ⟨hall, completions_eq s hall⟩

/-- Witness for C6: a complete run of Scenario C, two tasks dispatched and two
completions. -/
theorem C6_complete_after_all_tasks_witness :
    (exec collisionEnv (str "out") firstThenSecond (mailMerge collisionEnv (str "letter.txt"))).pc
        = .done
    ∧ dispatched
        (exec collisionEnv (str "out") firstThenSecond (mailMerge collisionEnv (str "letter.txt")))
        = 2
    ∧ completions
        (exec collisionEnv (str "out") firstThenSecond (mailMerge collisionEnv (str "letter.txt")))
        = dispatched
          (exec collisionEnv (str "out") firstThenSecond
            (mailMerge collisionEnv (str "letter.txt"))) :=
  ⟨by decide, by decide,
    (C6_complete_after_all_tasks collisionEnv (str "letter.txt") (str "out") firstThenSecond
      (Or.inr (Or.inr (by decide)))).2⟩

/-- C7 (as stated, refuted). In the merge `aliasEnv` the output paths of the
two records, `out/resume_x.txt` and `../cwd/out/resume_x.txt`, are different
paths that name one file. In the run `firstThenSecond` both tasks succeed and
`mailMerge` returns; the path of the first record is the path of no other
record, yet the file at that path holds the letter of the second record,
`ID 2`, and not the rendering `ID 1` of the first. -/
theorem C7_counterexample :
    (recordsOf [str "Name", str "ID"]
        [some [str "x", str "1"], some [str "/../../../cwd/out/resume_x", str "2"]]).map
        (outputFile id (str "out"))
      = [str "out/resume_x.txt", str "../cwd/out/resume_x.txt"]
    ∧ ((recordsOf [str "Name", str "ID"]
        [some [str "x", str "1"], some [str "/../../../cwd/out/resume_x", str "2"]]).map
        (outputFile id (str "out"))).count (str "out/resume_x.txt") = 1
    ∧ (exec aliasEnv (str "out") firstThenSecond (mailMerge aliasEnv (str "letter.txt"))).pc
        = .done
    ∧ (exec aliasEnv (str "out") firstThenSecond
        (mailMerge aliasEnv (str "letter.txt"))).tasks.map Task.err = [false, false]
    ∧ (exec aliasEnv (str "out") firstThenSecond (mailMerge aliasEnv (str "letter.txt"))).files
        (aliasEnv.resolve (str "out/resume_x.txt")) = some (str "ID 2")
    ∧ render (str "ID " ++ placeholder (str "ID")) [(str "Name", str "x"), (str "ID", str "1")]
        = str "ID 1" := by
  decide

/-- C7 (amended). In a merge whose template read and queries succeed, whatever
the schedule and the outcome of the other tasks: once `mailMerge` has
returned, a record whose output path names a file that the output path of no
other record names, and whose task ended with a nil `err` (its `os.Create`
and `io.WriteString` succeeded), has at its output path a file holding exactly
its rendering of the template, and the tasks dispatched are those of the
records, one per record and in their order. The merge is never stuck before
that: from every state reached some schedule leads to the return, some
goroutine can take a step as long as `mailMerge` has not returned, and no
schedule takes more than `7 * rows + 2` steps. -/
theorem C7_task_failure_is_local (env : Env) (templateFile outputFolder T : Str)
    (info : List (Option Str)) (rows : List (Option (List Str))) (schedule : List Event)
    (hT : env.readFile templateFile = some T) (hinfo : env.tableInfo = some info)
    (hrows : env.query (selectQuery (scannedColumns info)) = some rows) :
    (∀ (i : Nat) (r : List (Str × Str)),
      (exec env outputFolder schedule (mailMerge env templateFile)).pc = .done →
      (recordsOf (scannedColumns info) rows)[i]? = some r →
      ((recordsOf (scannedColumns info) rows).map
          (fun r => env.resolve (outputFile env.unicodeLower outputFolder r))).count
          (env.resolve (outputFile env.unicodeLower outputFolder r)) = 1 →
      ((exec env outputFolder schedule (mailMerge env templateFile)).tasks[i]?).map Task.err
          = some false →
      (exec env outputFolder schedule (mailMerge env templateFile)).files
          (env.resolve (outputFile env.unicodeLower outputFolder r)) = some (render T r))
    ∧ ((exec env outputFolder schedule (mailMerge env templateFile)).pc = .done →
        (exec env outputFolder schedule (mailMerge env templateFile)).tasks.map
            (fun t => (scannedColumns info).zip t.vals)
          = recordsOf (scannedColumns info) rows
        ∧ dispatched (exec env outputFolder schedule (mailMerge env templateFile))
          = (recordsOf (scannedColumns info) rows).length)
    ∧ (∃ more, (exec env outputFolder (schedule ++ more) (mailMerge env templateFile)).pc = .done)
    ∧ ((exec env outputFolder schedule (mailMerge env templateFile)).pc ≠ .done →
        ∃ e, (step env outputFolder e
          (exec env outputFolder schedule (mailMerge env templateFile))).isSome = true)
    ∧ stepsTaken env outputFolder schedule (mailMerge env templateFile) ≤ 7 * rows.length + 2 := by
  obtain ⟨h0pc, h0T, h0C, h0rows⟩ := mailMerge_ok env templateFile T info rows hT hinfo hrows
  have h := exec_inv env outputFolder schedule _ (mailMerge_inv env templateFile)
  have hsetup := exec_induction env outputFolder (SetupInv (mailMerge env templateFile))
    (step_setupInv env outputFolder _) schedule _ (mailMerge_setupInv env templateFile)
  have hfile := exec_induction env outputFolder (FileInv env outputFolder)
    (step_fileInv env outputFolder) schedule _ (mailMerge_fileInv env templateFile outputFolder)
  have hnf := exec_not_failed env outputFolder schedule (mailMerge env templateFile)
    (by rw [h0pc]; simp)
  refine ⟨?_, ?_, ?_, ?_, ?_⟩
  · intro i r hpc hr huniq herr
    have := done_file env outputFolder _ _ h hsetup hfile hpc i r (by rw [h0C, h0rows]; exact hr)
      (by rw [h0C, h0rows]; exact huniq) herr
    rw [h0T] at this
    exact this
  · intro hpc
    have hv := (done_tasks _ _ h hsetup hpc).2
    rw [h0rows] at hv
    have hlen := congrArg List.length hv
    simp only [List.length_map] at hlen
    refine ⟨?_, by simp [dispatched, recordsOf, hlen]⟩
    rw [recordsOf, ← hv, List.map_map]
    rfl
  · obtain ⟨more, hmore⟩ := can_complete env outputFolder _ _ (le_refl _) h hnf
    exact ⟨more, by rw [exec_append]; exact hmore⟩
  · intro hpc
    exact progress env outputFolder _ h hpc hnf
  · have := stepsTaken_le env outputFolder schedule (mailMerge env templateFile)
    have h0 : stepsLeft (mailMerge env templateFile) = 7 * rows.length + 2 := by
      simp [stepsLeft, h0pc, h0rows, (mailMerge_tasks env templateFile).1, pcWeight]
    omega

/-- Witness for C7 (amended): in the run `firstFails` the task of `Ada` fails at
`os.Create`; `mailMerge` returns and the file of `Bob Lee` holds his letter. -/
theorem C7_task_failure_is_local_witness :
    (exec skippedRowEnv (str "out") firstFails (mailMerge skippedRowEnv (str "letter.txt"))).pc
        = .done
    ∧ ((exec skippedRowEnv (str "out") firstFails
          (mailMerge skippedRowEnv (str "letter.txt"))).tasks[0]?).map Task.err = some true
    ∧ (exec skippedRowEnv (str "out") firstFails (mailMerge skippedRowEnv (str "letter.txt"))).files
          (str "out/resume_bob_lee.txt") = some (str "Dear Bob Lee") :=
  ⟨by decide, by decide,
    (C7_task_failure_is_local skippedRowEnv (str "letter.txt") (str "out")
      (str "Dear " ++ placeholder (str "Name")) [some (str "Name"), none, some (str "ID")]
      [some [str "Ada", str "7"], none, some [str "Bob Lee", str "3"]] firstFails
      (by decide) (by decide) (by decide)).1 1
      [(str "Name", str "Bob Lee"), (str "ID", str "3")] (by decide) (by decide) (by decide)
      (by decide)⟩

/-- C8. If the template file cannot be read, `mailMerge` returns at the read
error: whatever is scheduled afterwards, the run stays in the state of that
return, in which the only actions are the read and the log line of the error
(no schema query, no row query, no completion line), no task has been
dispatched and every file is as it was. -/
theorem C8_unreadable_template_aborts (env : Env) (templateFile outputFolder : Str)
    (schedule : List Event) (hread : env.readFile templateFile = none) :
    (exec env outputFolder schedule (mailMerge env templateFile)).pc = .failed
    ∧ (exec env outputFolder schedule (mailMerge env templateFile)).trace
        = [.readFile templateFile, .log "Template read error"]
    ∧ (exec env outputFolder schedule (mailMerge env templateFile)).tasks = []
    ∧ (exec env outputFolder schedule (mailMerge env templateFile)).files = env.files := by
  have h0 : mailMerge env templateFile
      = failedState env [.readFile templateFile, .log "Template read error"] := by
    simp [mailMerge, hread]
  rw [h0, exec_failed env outputFolder _ rfl rfl schedule]
  exact ⟨rfl, rfl, rfl, rfl⟩

/-- Witness for C8: the merge of Scenario C with a template path that does
not exist. -/
theorem C8_unreadable_template_aborts_witness :
    (exec collisionEnv (str "out") firstThenSecond (mailMerge collisionEnv (str "missing.txt"))).pc
        = .failed
    ∧ (exec collisionEnv (str "out") firstThenSecond
        (mailMerge collisionEnv (str "missing.txt"))).tasks = []
    ∧ (exec collisionEnv (str "out") firstThenSecond
        (mailMerge collisionEnv (str "missing.txt"))).files (str "out/resume_bob_lee.txt") = none :=
  ⟨(C8_unreadable_template_aborts collisionEnv (str "missing.txt") (str "out") firstThenSecond
      (by decide)).1,
    (C8_unreadable_template_aborts collisionEnv (str "missing.txt") (str "out") firstThenSecond
      (by decide)).2.2.1,
    by decide⟩

/-- C9 (as stated, refuted). Two runs of the merge of Scenario C, both from an
empty directory, both complete and with every file operation succeeding,
leave different contents at `out/resume_bob_lee.txt`: the letter of the
second record in one run, of the first record in the other. The same happens
in the merge `aliasEnv`, whose two records have different output paths,
`out/resume_x.txt` and `../cwd/out/resume_x.txt`, that name one file. -/
theorem C9_counterexample :
    ((exec collisionEnv (str "out") firstThenSecond (mailMerge collisionEnv (str "letter.txt"))).pc
        = .done
      ∧ (exec collisionEnv (str "out") firstThenSecond
          (mailMerge collisionEnv (str "letter.txt"))).tasks.map Task.err = [false, false]
      ∧ (exec collisionEnv (str "out") firstThenSecond
          (mailMerge collisionEnv (str "letter.txt"))).files (str "out/resume_bob_lee.txt")
          = some (str "ID 2"))
    ∧ ((exec collisionEnv (str "out") secondThenFirst (mailMerge collisionEnv (str "letter.txt"))).pc
        = .done
      ∧ (exec collisionEnv (str "out") secondThenFirst
          (mailMerge collisionEnv (str "letter.txt"))).tasks.map Task.err = [false, false]
      ∧ (exec collisionEnv (str "out") secondThenFirst
          (mailMerge collisionEnv (str "letter.txt"))).files (str "out/resume_bob_lee.txt")
          = some (str "ID 1"))
    ∧ (((recordsOf [str "Name", str "ID"]
          [some [str "x", str "1"], some [str "/../../../cwd/out/resume_x", str "2"]]).map
          (outputFile id (str "out"))).Nodup
      ∧ (exec aliasEnv (str "out") firstThenSecond (mailMerge aliasEnv (str "letter.txt"))).pc
          = .done
      ∧ (exec aliasEnv (str "out") firstThenSecond
          (mailMerge aliasEnv (str "letter.txt"))).tasks.map Task.err = [false, false]
      ∧ (exec aliasEnv (str "out") firstThenSecond (mailMerge aliasEnv (str "letter.txt"))).files
          (aliasEnv.resolve (str "out/resume_x.txt")) = some (str "ID 2")
      ∧ (exec aliasEnv (str "out") secondThenFirst (mailMerge aliasEnv (str "letter.txt"))).pc
          = .done
      ∧ (exec aliasEnv (str "out") secondThenFirst
          (mailMerge aliasEnv (str "letter.txt"))).tasks.map Task.err = [false, false]
      ∧ (exec aliasEnv (str "out") secondThenFirst (mailMerge aliasEnv (str "letter.txt"))).files
          (aliasEnv.resolve (str "out/resume_x.txt")) = some (str "ID 1")) := by
  decide

/-- C9 (amended). For every template and every list of records whose output
paths name pairwise distinct files, two complete runs of the merge that start
from the same files (an empty output directory in particular) and in which
every file operation succeeds leave the same content in every file. -/
theorem C9_merge_idempotent (env : Env) (templateFile outputFolder T : Str)
    (info : List (Option Str)) (rows : List (Option (List Str))) (schedule1 schedule2 : List Event)
    (hT : env.readFile templateFile = some T) (hinfo : env.tableInfo = some info)
    (hrows : env.query (selectQuery (scannedColumns info)) = some rows)
    (hdistinct :
      ((recordsOf (scannedColumns info) rows).map
        (fun r => env.resolve (outputFile env.unicodeLower outputFolder r))).Nodup)
    (hdone1 : (exec env outputFolder schedule1 (mailMerge env templateFile)).pc = .done)
    (hdone2 : (exec env outputFolder schedule2 (mailMerge env templateFile)).pc = .done)
    (hok1 : ∀ t ∈ (exec env outputFolder schedule1 (mailMerge env templateFile)).tasks,
      t.err = false)
    (hok2 : ∀ t ∈ (exec env outputFolder schedule2 (mailMerge env templateFile)).tasks,
      t.err = false) :
    ∀ f, (exec env outputFolder schedule1 (mailMerge env templateFile)).files f
        = (exec env outputFolder schedule2 (mailMerge env templateFile)).files f := by
  obtain ⟨h0pc, h0T, h0C, h0rows⟩ := mailMerge_ok env templateFile T info rows hT hinfo hrows
  have key : ∀ (schedule : List Event),
      (exec env outputFolder schedule (mailMerge env templateFile)).pc = .done →
      (∀ t ∈ (exec env outputFolder schedule (mailMerge env templateFile)).tasks, t.err = false) →
      ∀ f, (exec env outputFolder schedule (mailMerge env templateFile)).files f
        = if f ∈ (recordsOf (scannedColumns info) rows).map
              (fun r => env.resolve (outputFile env.unicodeLower outputFolder r)) then
            ((recordsOf (scannedColumns info) rows).find?
              (fun r => env.resolve (outputFile env.unicodeLower outputFolder r) = f)).map
              (render T)
          else env.files f := by
    intro schedule hdone hok f
    have h := exec_inv env outputFolder schedule _ (mailMerge_inv env templateFile)
    have hsetup := exec_induction env outputFolder (SetupInv (mailMerge env templateFile))
      (step_setupInv env outputFolder _) schedule _ (mailMerge_setupInv env templateFile)
    have hfile := exec_induction env outputFolder (FileInv env outputFolder)
      (step_fileInv env outputFolder) schedule _ (mailMerge_fileInv env templateFile outputFolder)
    have hframe := exec_induction env outputFolder (FrameInv env outputFolder)
      (step_frameInv env outputFolder) schedule _ (mailMerge_frameInv env templateFile outputFolder)
    generalize exec env outputFolder schedule (mailMerge env templateFile) = s
      at h hsetup hfile hframe hdone hok
    obtain ⟨_, hvals⟩ := done_tasks _ s h hsetup hdone
    have hrec : recordsOf (scannedColumns info) rows = s.tasks.map (taskRecord s) := by
      simp only [recordsOf, ← h0rows, ← hvals, List.map_map]
      apply List.map_congr_left
      intro t _
      simp [taskRecord, hsetup.columns, h0C]
    have hfiles : (recordsOf (scannedColumns info) rows).map
        (fun r => env.resolve (outputFile env.unicodeLower outputFolder r))
        = taskFiles env outputFolder s := by
      rw [hrec, List.map_map]; rfl
    by_cases hf : f ∈ (recordsOf (scannedColumns info) rows).map
        (fun r => env.resolve (outputFile env.unicodeLower outputFolder r))
    · rw [if_pos hf]
      cases hfind : (recordsOf (scannedColumns info) rows).find?
          (fun r => env.resolve (outputFile env.unicodeLower outputFolder r) = f) with
      | none =>
        exfalso
        obtain ⟨r, hr, hrf⟩ := List.mem_map.mp hf
        have := List.find?_eq_none.mp hfind r hr
        simp [hrf] at this
      | some r =>
        have hrf : env.resolve (outputFile env.unicodeLower outputFolder r) = f := by
          simpa using List.find?_some hfind
        have hrmem : r ∈ recordsOf (scannedColumns info) rows := List.mem_of_find?_eq_some hfind
        obtain ⟨i, hi⟩ := List.getElem?_of_mem hrmem
        have hcount : ((recordsOf (scannedColumns info) rows).map
            (fun r => env.resolve (outputFile env.unicodeLower outputFolder r))).count
              (env.resolve (outputFile env.unicodeLower outputFolder r)) = 1 :=
          count_eq_one_of_nodup _ _ hdistinct
            (List.mem_map_of_mem
              (fun r => env.resolve (outputFile env.unicodeLower outputFolder r)) hrmem)
        have herr : (s.tasks[i]?).map Task.err = some false := by
          rw [hrec] at hi
          cases ht : s.tasks[i]? with
          | none => simp [ht] at hi
          | some t => simp [hok t (List.getElem?_mem ht)]
        have := done_file env outputFolder _ s h hsetup hfile hdone i r
          (by rw [h0C, h0rows]; exact hi) (by rw [h0C, h0rows]; exact hcount) herr
        rw [h0T, hrf] at this
        simpa using this
    · rw [if_neg hf]
      exact hframe f (hfiles ▸ hf)
  intro f
  rw [key schedule1 hdone1 hok1 f, key schedule2 hdone2 hok2 f]

/-- Witness for C9 (amended): two complete runs over the records `Ada` and
`Bob Lee`, in different orders, leave the same file for `Ada`. -/
theorem C9_merge_idempotent_witness :
    (exec skippedRowEnv (str "out") adaThenBob (mailMerge skippedRowEnv (str "letter.txt"))).files
        (str "out/resume_ada.txt")
      = (exec skippedRowEnv (str "out") bobThenAda (mailMerge skippedRowEnv (str "letter.txt"))).files
        (str "out/resume_ada.txt")
    ∧ (exec skippedRowEnv (str "out") adaThenBob (mailMerge skippedRowEnv (str "letter.txt"))).files
        (str "out/resume_ada.txt") = some (str "Dear Ada") :=
  ⟨C9_merge_idempotent skippedRowEnv (str "letter.txt") (str "out")
      (str "Dear " ++ placeholder (str "Name")) [some (str "Name"), none, some (str "ID")]
      [some [str "Ada", str "7"], none, some [str "Bob Lee", str "3"]] adaThenBob bobThenAda
      (by decide) (by decide) (by decide) (by decide) (by decide) (by decide) (by decide)
      (by decide) (str "out/resume_ada.txt"),
    by decide⟩

theorem splitPath_ne_nil : ∀ (p : Str), splitPath p ≠ []
  | [] => by simp [splitPath]
  | c :: cs => by
    unfold splitPath
    split
    · simp
    · split <;> simp

theorem splitPath_append_sep : ∀ (a b : Str),
    splitPath (a ++ Separator :: b) = splitPath a ++ splitPath b
  | [], b => by simp [splitPath]
  | c :: a, b => by
    have ih := splitPath_append_sep a b
    show splitPath (c :: (a ++ Separator :: b)) = splitPath (c :: a) ++ splitPath b
    by_cases hc : c = Separator
    · simp [splitPath, hc, ih]
    · cases ha : splitPath a with
      | nil => exact absurd ha (splitPath_ne_nil a)
      | cons e es => simp [splitPath, hc, ih, ha]

theorem splitPath_of_no_sep : ∀ (f : Str), Separator ∉ f → splitPath f = [f]
  | [], _ => rfl
  | c :: cs, h => by
    have hc : c ≠ Separator := fun e => h (by simp [e])
    have ih := splitPath_of_no_sep cs (fun hm => h (List.mem_cons_of_mem _ hm))
    simp [splitPath, hc, ih]

theorem no_sep_of_mem_splitPath : ∀ (p e : Str), e ∈ splitPath p → Separator ∉ e
  | [], e, h => by
    simp [splitPath] at h
    simp [h]
  | c :: cs, e, h => by
    have ih := no_sep_of_mem_splitPath cs
    by_cases hc : c = Separator
    · simp [splitPath, hc] at h
      rcases h with h | h
      · simp [h]
      · exact ih e h
    · cases hcs : splitPath cs with
      | nil => exact absurd hcs (splitPath_ne_nil cs)
      | cons e0 es =>
        simp [splitPath, hc, hcs] at h
        rcases h with h | h
        · subst h
          intro hm
          rcases List.mem_cons.mp hm with h1 | h1
          · exact hc h1.symm
          · exact ih e0 (by simp [hcs]) h1
        · exact ih e (by simp [hcs, h])

theorem cleanElems_append_real (rooted : Bool) (f : Str) (h0 : f ≠ []) (h1 : f ≠ [46])
    (h2 : f ≠ [46, 46]) : ∀ (es out : List Str),
    cleanElems rooted out (es ++ [f]) = f :: cleanElems rooted out es
  | [], out => by simp [cleanElems, h0, h1, h2]
  | e :: es, out => by
    have ih := cleanElems_append_real rooted f h0 h1 h2 es
    show cleanElems rooted out (e :: (es ++ [f])) = f :: cleanElems rooted out (e :: es)
    unfold cleanElems
    split
    · exact ih _
    · split
      · split
        · split
          · exact ih _
          · exact ih _
        · split
          · exact ih _
          · exact ih _
      · exact ih _

theorem cleanElems_mem (rooted : Bool) : ∀ (es out : List Str) (e : Str),
    e ∈ cleanElems rooted out es → e ∈ out ∨ (e ∈ es ∧ e ≠ [] ∧ e ≠ [46])
  | [], out, e, h => Or.inl (by simpa [cleanElems] using h)
  | e0 :: es, out, e, h => by
    have ih := cleanElems_mem rooted es
    have lift : ∀ out', (∀ x ∈ out', x ∈ out ∨ (x = e0 ∧ e0 ≠ [] ∧ e0 ≠ [46])) →
        e ∈ cleanElems rooted out' es → e ∈ out ∨ (e ∈ e0 :: es ∧ e ≠ [] ∧ e ≠ [46]) := by
      intro out' hout' hmem
      rcases ih out' e hmem with h1 | ⟨h1, h2, h3⟩
      · rcases hout' e h1 with h4 | ⟨h4, h5, h6⟩
        · exact Or.inl h4
        · exact Or.inr ⟨by simp [h4], h4 ▸ h5, h4 ▸ h6⟩
      · exact Or.inr ⟨List.mem_cons_of_mem _ h1, h2, h3⟩
    unfold cleanElems at h
    split at h
    · exact lift out (fun x hx => Or.inl hx) h
    · rename_i hreal
      have hne : e0 ≠ [] ∧ e0 ≠ [46] := ⟨fun e => hreal (Or.inl e), fun e => hreal (Or.inr e)⟩
      split at h
      · rename_i hdd
        split at h
        · rename_i top below
          split at h
          · refine lift _ (fun x hx => ?_) h
            rcases List.mem_cons.mp hx with h1 | h1
            · exact Or.inr ⟨h1.trans hdd.symm, hne⟩
            · exact Or.inl h1
          · exact lift _ (fun x hx => Or.inl (List.mem_cons_of_mem _ hx)) h
        · split at h
          · exact lift _ (fun x hx => Or.inl hx) h
          · refine lift _ (fun x hx => ?_) h
            simp at hx
            exact Or.inr ⟨hx.trans hdd.symm, hne⟩
      · refine lift _ (fun x hx => ?_) h
        rcases List.mem_cons.mp hx with h1 | h1
        · exact Or.inr ⟨h1, hne⟩
        · exact Or.inl h1

theorem Join_append_singleton (sep f : Str) : ∀ (E : List Str), E ≠ [] →
    Join (E ++ [f]) sep = Join E sep ++ sep ++ f
  | [], h => absurd rfl h
  | [e], _ => by simp [Join]
  | e :: e' :: E, _ => by
    have ih := Join_append_singleton sep f (e' :: E) (by simp)
    have hcons : ∀ X : List Str, Join (e :: e' :: X) sep = e ++ sep ++ Join (e' :: X) sep := by
      intro X
      rw [Join]
      simp
    simp only [List.cons_append] at ih ⊢
    rw [hcons, hcons, ih]
    simp

theorem Join_not_dot_or_root : ∀ (E : List Str), E ≠ [] →
    (∀ e ∈ E, e ≠ [] ∧ e ≠ [46] ∧ Separator ∉ e) →
    Join E [Separator] ≠ [46] ∧ Join E [Separator] ≠ [Separator]
  | [], h, _ => absurd rfl h
  | [e], _, h => by
    obtain ⟨h0, h1, h2⟩ := h e (by simp)
    refine ⟨by simpa [Join] using h1, ?_⟩
    intro heq
    simp [Join] at heq
    exact h2 (by simp [heq])
  | e :: e' :: E, _, h => by
    obtain ⟨h0, _, _⟩ := h e (by simp)
    have hlen : 2 ≤ (Join (e :: e' :: E) [Separator]).length := by
      have : 0 < e.length := List.length_pos.mpr h0
      simp [Join]
      omega
    constructor <;> intro heq <;> rw [heq] at hlen <;> simp at hlen

/-- A file name without a separator, joined to a directory, is placed
directly in the cleaned directory. -/
theorem filepathJoin_of_no_sep (folder f : Str) (hs : Separator ∉ f) (h0 : f ≠ [])
    (h1 : f ≠ [46]) (h2 : f ≠ [46, 46]) :
    filepathJoin [folder, f] = placeUnder (Clean folder) f := by
  have hreal : ¬ (f = [] ∨ f = [46]) := fun h => h.elim h0 h1
  by_cases hfolder : folder = []
  · subst hfolder
    have hjoin : filepathJoin [[], f] = Clean f := by simp [filepathJoin, h0, Join]
    have hclean : Clean f = f := by
      obtain ⟨c, cs, rfl⟩ := List.exists_cons_of_ne_nil h0
      have hc : c ≠ Separator := fun e => hs (by simp [e])
      have hhead : ((c :: cs).head? == some Separator) = false := by simp [hc]
      simp only [Clean, hhead, splitPath_of_no_sep _ hs, cleanElems, hreal, h2, if_false]
      simp [Join]
    rw [hjoin, hclean]
    simp [placeUnder, Clean]
  · obtain ⟨c, cs, rfl⟩ := List.exists_cons_of_ne_nil hfolder
    have hjoin : filepathJoin [c :: cs, f] = Clean ((c :: cs) ++ Separator :: f) := by
      simp [filepathJoin, Join]
    have hsplit : splitPath ((c :: cs) ++ Separator :: f) = splitPath (c :: cs) ++ [f] := by
      rw [splitPath_append_sep, splitPath_of_no_sep f hs]
    have hmem : ∀ e ∈ (cleanElems (c == Separator) [] (splitPath (c :: cs))).reverse,
        e ≠ [] ∧ e ≠ [46] ∧ Separator ∉ e := by
      intro e he
      rcases cleanElems_mem _ _ _ e (List.mem_reverse.mp he) with h | ⟨h3, h4, h5⟩
      · simp at h
      · exact ⟨h4, h5, no_sep_of_mem_splitPath _ e h3⟩
    have hpath : Clean ((c :: cs) ++ Separator :: f)
        = match (c == Separator),
            (cleanElems (c == Separator) [] (splitPath (c :: cs))).reverse ++ [f] with
          | true, elems => Separator :: Join elems [Separator]
          | false, [] => [46]
          | false, elems => Join elems [Separator] := by
      simp only [Clean, hsplit, cleanElems_append_real _ f h0 h1 h2, List.reverse_cons]
      simp
    have hdir : Clean (c :: cs)
        = match (c == Separator), (cleanElems (c == Separator) [] (splitPath (c :: cs))).reverse with
          | true, elems => Separator :: Join elems [Separator]
          | false, [] => [46]
          | false, elems => Join elems [Separator] := by
      simp [Clean]
    rw [hjoin, hpath, hdir]
    generalize (cleanElems (c == Separator) [] (splitPath (c :: cs))).reverse = E at hmem
    cases hr : (c == Separator) with
    | true =>
      cases E with
      | nil => simp [placeUnder, Join, Separator]
      | cons e E' =>
        have hne := Join_not_dot_or_root (e :: E') (by simp) hmem
        have hj := Join_append_singleton [Separator] f (e :: E') (by simp)
        simp only [hj]
        have hnd : Separator :: Join (e :: E') [Separator] ≠ [46] := by simp [Separator]
        have hnr : Separator :: Join (e :: E') [Separator] ≠ [Separator] := by
          intro h
          have hnil : Join (e :: E') [Separator] = [] := by simpa using h
          have h0e := (hmem e (by simp)).1
          cases E' with
          | nil => simp [Join] at hnil; exact h0e hnil
          | cons e' E'' =>
            have := congrArg List.length hnil
            simp [Join] at this
        simp [placeUnder, hnd, hnr]
    | false =>
      cases E with
      | nil => simp [placeUnder, Join]
      | cons e E' =>
        have hne := Join_not_dot_or_root (e :: E') (by simp) hmem
        have hj := Join_append_singleton [Separator] f (e :: E') (by simp)
        simp only [List.cons_append] at hj ⊢
        simp only [hj]
        simp [placeUnder, hne.1, hne.2]

/-- When the normalised name has no separator, the output path is the file
`resume_<name>.txt` placed directly in the cleaned output directory. -/
theorem outputFile_of_no_sep (unicodeLower : Str → Str) (outputFolder : Str)
    (record : List (Str × Str)) (hs : Separator ∉ safeName unicodeLower (nameOf record)) :
    outputFile unicodeLower outputFolder record
      = placeUnder (Clean outputFolder)
          (str "resume_" ++ safeName unicodeLower (nameOf record) ++ str ".txt") := by
  have hr : str "resume_" = [114, 101, 115, 117, 109, 101, 95] := by decide
  have ht : str ".txt" = [46, 116, 120, 116] := by decide
  rw [outputFile]
  apply filepathJoin_of_no_sep
  · rw [hr, ht]
    simp only [List.mem_append, not_or]
    exact ⟨⟨by simp [Separator], hs⟩, by simp [Separator]⟩
  · rw [hr]; simp
  · rw [hr]; simp
  · rw [hr]; simp

/-! ## Claims on the batch mode, the output directory and the order of columns -/

/-- C11. In batch mode `main` proceeds to open the database and call
`mailMerge` if and only if the template, db and output values are all
non-empty: with the three values non-empty its actions are `sql.Open` and the
call of `mailMerge` on the database, the template and the output folder; when
any of the three is missing its only action is the fatal error
`Missing required flags`, before the database is opened or anything else is
done. -/
theorem C11_batch_mode_flags (template dbFile output : Str) :
    ((MainStep.sqlOpen (str "sqlite") dbFile ∈ main true template dbFile output
        ∧ MainStep.callMailMerge dbFile template output ∈ main true template dbFile output)
      ↔ template ≠ [] ∧ dbFile ≠ [] ∧ output ≠ [])
    ∧ (template ≠ [] ∧ dbFile ≠ [] ∧ output ≠ [] →
        main true template dbFile output
          = [.sqlOpen (str "sqlite") dbFile, .callMailMerge dbFile template output])
    ∧ (template = [] ∨ dbFile = [] ∨ output = [] →
        main true template dbFile output
          = [.logFatal "Missing required flags: --template, --db, --output"]) := by
  have hopen : sqlOpen (str "sqlite") dbFile = some dbFile := by
    simp [sqlOpen, registeredDrivers]
  by_cases hmiss : template = [] ∨ dbFile = [] ∨ output = []
  · have hmain : main true template dbFile output
        = [.logFatal "Missing required flags: --template, --db, --output"] := by
      simp [main, hmiss]
    have hnot : ¬ (template ≠ [] ∧ dbFile ≠ [] ∧ output ≠ []) := by
      rintro ⟨h1, h2, h3⟩
      rcases hmiss with h | h | h
      · exact h1 h
      · exact h2 h
      · exact h3 h
    rw [hmain]
    exact ⟨⟨fun h => by simp at h, fun h => absurd h hnot⟩, fun h => absurd h hnot, fun _ => rfl⟩
  · have hall : template ≠ [] ∧ dbFile ≠ [] ∧ output ≠ [] :=
      ⟨fun h => hmiss (Or.inl h), fun h => hmiss (Or.inr (Or.inl h)),
        fun h => hmiss (Or.inr (Or.inr h))⟩
    have hmain : main true template dbFile output
        = [.sqlOpen (str "sqlite") dbFile, .callMailMerge dbFile template output] := by
      simp [main, hmiss, hopen]
    rw [hmain]
    exact ⟨⟨fun _ => hall, fun _ => by simp⟩, fun _ => rfl, fun h => absurd h hmiss⟩

/-- Witness for C11: with the three values given `main` opens the database
and calls `mailMerge`; with an empty `--output` its only action is the fatal
error of the missing flags. -/
theorem C11_batch_mode_flags_witness :
    main true (str "letter.txt") (str "contacts.db") (str "out")
      = [.sqlOpen (str "sqlite") (str "contacts.db"),
          .callMailMerge (str "contacts.db") (str "letter.txt") (str "out")]
    ∧ main true (str "letter.txt") (str "contacts.db") (str "")
      = [.logFatal "Missing required flags: --template, --db, --output"] :=
  ⟨(C11_batch_mode_flags (str "letter.txt") (str "contacts.db") (str "out")).2.1 (by decide),
    (C11_batch_mode_flags (str "letter.txt") (str "contacts.db") (str "")).2.2 (by decide)⟩

theorem valueOf_eq_some_iff : ∀ (record : List (Str × Str)), (record.map Prod.fst).Nodup →
    ∀ (c v : Str), valueOf record c = some v ↔ (c, v) ∈ record
  | [], _, c, v => by simp [valueOf]
  | (d, w) :: record, hnd, c, v => by
    have hnd2 : d ∉ record.map Prod.fst ∧ (record.map Prod.fst).Nodup :=
      List.nodup_cons.mp hnd
    have ih := valueOf_eq_some_iff record hnd2.2 c v
    by_cases hd : d = c
    · subst hd
      have hnot : (d, v) ∉ record := fun hmem =>
        hnd2.1 (List.mem_map.mpr ⟨(d, v), hmem, rfl⟩)
      simp [valueOf, hnot]
      exact eq_comm
    · have hne : ¬ (c = d) := fun e => hd e.symm
      simp only [valueOf] at ih
      simp [valueOf, hd, hne, ih]

/-- The value of a column does not depend on the order of the columns when
their names are pairwise distinct. -/
theorem valueOf_perm (record record' : List (Str × Str)) (hnd : (record.map Prod.fst).Nodup)
    (hperm : record'.Perm record) (c : Str) : valueOf record' c = valueOf record c := by
  have hnd' : (record'.map Prod.fst).Nodup := (hperm.map Prod.fst).nodup_iff.mpr hnd
  apply Option.ext
  intro v
  simp only [Option.mem_def]
  rw [valueOf_eq_some_iff record' hnd' c v, valueOf_eq_some_iff record hnd c v]
  exact hperm.mem_iff

/-- C13 (as stated, refuted). (a) On the well-formed template `{{A}}` the
columns `A = {{B}}` and `B = x`, of distinct names, give `x` in this order
and `{{B}}` in the other. (b) On the well-formed template `{{a}}{{q}}{{b}}`
the columns `a}}{{b = v` and `q = ` (empty), with brace-free values, give
`{{a}}{{b}}` in this order and `v` in the other. -/
theorem C13_counterexample :
    (WellFormed [.tok (str "A")]
      ∧ ([(str "A", placeholder (str "B")), (str "B", str "x")].map Prod.fst).Nodup
      ∧ List.Perm [(str "B", str "x"), (str "A", placeholder (str "B"))]
          [(str "A", placeholder (str "B")), (str "B", str "x")]
      ∧ render (flatten [.tok (str "A")]) [(str "A", placeholder (str "B")), (str "B", str "x")]
          = str "x"
      ∧ render (flatten [.tok (str "A")]) [(str "B", str "x"), (str "A", placeholder (str "B"))]
          = placeholder (str "B"))
    ∧ (WellFormed [.tok (str "a"), .tok (str "q"), .tok (str "b")]
      ∧ ([(str "a" ++ rbraces ++ lbraces ++ str "b", str "v"), (str "q", str "")].map
          Prod.fst).Nodup
      ∧ List.Perm [(str "q", str ""), (str "a" ++ rbraces ++ lbraces ++ str "b", str "v")]
          [(str "a" ++ rbraces ++ lbraces ++ str "b", str "v"), (str "q", str "")]
      ∧ render (flatten [.tok (str "a"), .tok (str "q"), .tok (str "b")])
            [(str "a" ++ rbraces ++ lbraces ++ str "b", str "v"), (str "q", str "")]
          = placeholder (str "a") ++ placeholder (str "b")
      ∧ render (flatten [.tok (str "a"), .tok (str "q"), .tok (str "b")])
            [(str "q", str ""), (str "a" ++ rbraces ++ lbraces ++ str "b", str "v")]
          = str "v") :=
  ⟨⟨by decide, by decide, List.Perm.swap _ _ _, by decide, by decide⟩,
    ⟨by decide, by decide, List.Perm.swap _ _ _, by decide, by decide⟩⟩

/-- C13 (amended). For every well-formed template and every record with
pairwise distinct brace-free column names and brace-free values, the rendered
output of the substitution loop is the same for every order in which the
columns are applied. -/
theorem C13_render_order_independent (segs : List Seg) (record record' : List (Str × Str))
    (hwf : WellFormed segs) (hrec : ∀ cv ∈ record, BraceFree cv.1 ∧ BraceFree cv.2)
    (hdistinct : (record.map Prod.fst).Nodup) (hperm : record'.Perm record) :
    render (flatten segs) record' = render (flatten segs) record := by
  rw [render_flatten record segs hwf hrec,
    render_flatten record' segs hwf (fun cv hcv => hrec cv (hperm.mem_iff.mp hcv))]
  simp only [reference]
  congr 1
  apply List.map_congr_left
  intro seg _
  cases seg with
  | lit t => rfl
  | tok n => simp only [refSeg, valueOf_perm record record' hdistinct hperm n]

/-- Witness for C13 (amended): Scenario A with its two columns in either
order. -/
theorem C13_render_order_independent_witness :
    render
        (flatten [.lit (str "Dear "), .tok (str "Name"), .lit (str ",\nYour ID is "),
          .tok (str "ID"), .lit (str ".")])
        [(str "ID", str "7"), (str "Name", str "Ada")]
      = render
        (flatten [.lit (str "Dear "), .tok (str "Name"), .lit (str ",\nYour ID is "),
          .tok (str "ID"), .lit (str ".")])
        [(str "Name", str "Ada"), (str "ID", str "7")] :=
  C13_render_order_independent _ _ _ (by decide) (by decide) (by decide) (List.Perm.swap _ _ _)

/-- C14. Substituted values are re-scanned: on the template `{{A}}` with the
two columns `A = {{B}}` and `B = x`, the value inserted for `A` contains the
placeholder of `B` and is replaced when `B` is applied, so the sequential
replacement gives `x` while the single-pass rendering, which never re-scans an
inserted value, gives `{{B}}`. -/
theorem C14_inserted_values_are_rescanned :
    ∃ (segs : List Seg) (a b va vb : Str),
      WellFormed segs
      ∧ a ≠ b
      ∧ placeholder b <:+: va
      ∧ render (flatten segs) [(a, va)] = va
      ∧ render (flatten segs) [(a, va), (b, vb)] = vb
      ∧ reference segs [(a, va), (b, vb)] = va
      ∧ render (flatten segs) [(a, va), (b, vb)] ≠ reference segs [(a, va), (b, vb)] :=
  ⟨[.tok (str "A")], str "A", str "B", placeholder (str "B"), str "x",
    by decide, by decide, List.infix_refl _, by decide, by decide, by decide, by decide⟩

/-- C12 (the code at the failing inputs). With the output directory `out`:
the Name `/../../x` gives the path `x.txt`, whose parent directory is `.` and
not `out` and whose base name does not start with `resume_`; the Name
`/../../../x` gives `../x.txt`, above the directory the merge was started in;
the Name `a/b` gives `out/resume_a/b.txt`, whose parent directory is
`out/resume_a` and whose base name is `b.txt`. -/
theorem C12_output_path_leaves_output_directory :
    Clean (str "out") = str "out"
    ∧ (outputFile id (str "out") [(str "Name", str "/../../x"), (str "ID", str "3")]
          = str "x.txt"
      ∧ Dir (outputFile id (str "out") [(str "Name", str "/../../x"), (str "ID", str "3")])
          = str "."
      ∧ ¬ str "resume_"
          <+: Base (outputFile id (str "out") [(str "Name", str "/../../x"), (str "ID", str "3")]))
    ∧ outputFile id (str "out") [(str "Name", str "/../../../x"), (str "ID", str "3")]
        = str "../x.txt"
    ∧ (outputFile id (str "out") [(str "Name", str "a/b"), (str "ID", str "3")]
          = str "out/resume_a/b.txt"
      ∧ Dir (outputFile id (str "out") [(str "Name", str "a/b"), (str "ID", str "3")])
          = str "out/resume_a"
      ∧ Base (outputFile id (str "out") [(str "Name", str "a/b"), (str "ID", str "3")])
          = str "b.txt") := by
  decide

end Goatpad
